import Mathlib

/-!
Verification of the rule-based static-analysis engine described by the
fsj-claude-tools rust-toolkit specification.  The repository ships the
fixture corpus (`test-scenarios.rs` files) for six review skills; the engine
itself (Structural Model, six Detectors, Finding Aggregator, Triage Router)
is specified but its implementation is not part of the shipped sources, so
every component below is modelled from the specification text and the claims
are settled against that model.
-/

namespace StaticAnalysis

/-- Modelled from the spec: severity of a Finding (§3). -/
inductive Severity where
  | info
  | warning
  | critical
deriving DecidableEq

/-- Modelled from the spec: confidence of a Finding (§3). -/
inductive Confidence where
  | possible
  | likely
  | definite
deriving DecidableEq

/-- Numeric rank of a confidence level, used to state "confidence at least
Likely". -/
def Confidence.rank : Confidence → Nat
  | .possible => 0
  | .likely => 1
  | .definite => 2

/-- Modelled from the spec: the six detector domains (§2). -/
inductive Domain where
  | architecture
  | concurrency
  | borrowing
  | errorHandling
  | systems
  | typeSystem
deriving DecidableEq

/-- The fixed list of all six domains. -/
def allDomains : List Domain :=
  [.architecture, .concurrency, .borrowing, .errorHandling, .systems, .typeSystem]

/-- Modelled from the spec: the coarse statement alphabet of a
FunctionDecl's statement sequence (§3: "lock-acquire, suspend-point, spawn,
pointer-deref, unwrap-call, return, etc." — coarse enough for rule matching
without full semantic execution).  A spawned task carries the rule-matching
metadata §4.3 needs: whether it mutates shared state with no intervening
synchronization, and its lock-acquisition order.  A pointer dereference
carries the flags and ownership tag §4.6, §8 and §9 condition on: whether a
precondition is documented and validated at entry, the owner id of the
dereferenced data (§9 ownership/lifetime-tag metadata), and whether the
constructing code contradicts the documented precondition.  `scopeEnd o` is
the scope-end marker of owner `o` (§4.6, §9).  An unwrap call records
whether it sits on a reachable runtime path (§4.5), a discarded error
whether it sits on a request path (§4.5). -/
inductive Stmt where
  | lockAcquire
  | lockRelease
  | suspendPoint
  | spawnTask (mutatesSharedNoSync : Bool) (lockOrder : List Nat)
  | pointerDeref (documented : Bool) (entryValidated : Bool)
      (source : Nat) (contradicted : Bool)
  | scopeEnd (owner : Nat)
  | ptrArithmetic (guarded : Bool)
  | ffiCall (lifetimeTied : Bool)
  | unwrapCall (reachableRuntimePath : Bool)
  | errorDiscarded (onRequestPath : Bool)
  | blockingIoCall
  | errorStringify
  | retStmt
  | otherStmt
deriving DecidableEq

def Stmt.isAcquire : Stmt → Bool
  | .lockAcquire => true
  | _ => false

def Stmt.isRelease : Stmt → Bool
  | .lockRelease => true
  | _ => false

def Stmt.isSuspend : Stmt → Bool
  | .suspendPoint => true
  | _ => false

/-- An unsafe operation statement — these sit inside unsafe blocks, so
their count is the "unsafe-block counts" signal of §4.8. -/
def Stmt.isUnsafeOp : Stmt → Bool
  | .pointerDeref _ _ _ _ => true
  | .ptrArithmetic _ => true
  | .ffiCall _ => true
  | _ => false

def Stmt.isBlockingIo : Stmt → Bool
  | .blockingIoCall => true
  | _ => false

/-- A spawned task that mutates shared state with no intervening
synchronization (§4.3 race trigger). -/
def Stmt.isRacySpawn : Stmt → Bool
  | .spawnTask m _ => m
  | _ => false

/-- An error-handling statement (unwrap, discarded error, stringified
error). -/
def Stmt.isErrStmt : Stmt → Bool
  | .unwrapCall _ => true
  | .errorDiscarded _ => true
  | .errorStringify => true
  | _ => false

/-- Modelled from the spec: a type descriptor records the named lifetimes it
mentions (§3: parameter "type descriptor", lifetime parameter lists). -/
structure TypeDesc where
  lifetimes : List String
deriving DecidableEq

/-- Modelled from the spec: FunctionDecl (§3). -/
structure FunctionDecl where
  id : Nat
  name : String
  params : List TypeDesc
  retType : TypeDesc
  isAsync : Bool
  isUnsafe : Bool
  generics : List String
  lifetimeParams : List String
  lifetimeRelations : List (String × String)
  stmts : List Stmt
deriving DecidableEq

/-- Modelled from the spec: a struct field (§3 StructDecl; §9 ownership tag
metadata: `refInto = some n` marks a pointer/reference into data owned by
declaration `n`). -/
structure FieldDecl where
  name : String
  boxedOrShared : Bool
  refInto : Option Nat
  documented : Bool
deriving DecidableEq

/-- Modelled from the spec: StructDecl (§3). -/
structure StructDecl where
  id : Nat
  name : String
  fields : List FieldDecl
deriving DecidableEq

/-- Modelled from the spec: TraitDecl (§3, §4.2, §4.7). -/
structure TraitDecl where
  id : Nat
  name : String
  methods : List String
  supertraits : List String
  crossesFfi : Bool
  internalOnly : Bool
deriving DecidableEq

/-- Modelled from the spec: an impl block, carrying the implemented trait
(if any) and the names of the methods it defines. -/
structure ImplBlock where
  id : Nat
  targetName : String
  traitName : Option String
  methodNames : List String
deriving DecidableEq

/-- Modelled from the spec: EnumDecl (§3). -/
structure EnumDecl where
  id : Nat
  name : String
  variants : List String
deriving DecidableEq

/-- Modelled from the spec: Declaration, a tagged variant (§3). -/
inductive Declaration where
  | structD (s : StructDecl)
  | traitD (t : TraitDecl)
  | implB (i : ImplBlock)
  | funD (f : FunctionDecl)
  | enumD (e : EnumDecl)
deriving DecidableEq

/-- The declaration id used by Finding locations. -/
def Declaration.id : Declaration → Nat
  | .structD s => s.id
  | .traitD t => t.id
  | .implB i => i.id
  | .funD f => f.id
  | .enumD e => e.id

/-- Modelled from the spec: CompilationUnit, an ordered declaration
sequence (§3). -/
structure CompilationUnit where
  decls : List Declaration
deriving DecidableEq

/-- A unit is well formed when declaration ids are unique, matching §4.1
"fetch by id". -/
def CompilationUnit.WellFormed (u : CompilationUnit) : Prop :=
  (u.decls.map Declaration.id).Nodup

/-- Modelled from the spec: Finding (§3).  `domains` is the provenance tag;
a detector emits a singleton, the Aggregator may merge several domains into
one Finding (§4.7). -/
structure Finding where
  ruleId : String
  domains : List Domain
  severity : Severity
  message : String
  declId : Nat
  stmtOffset : Option Nat
  confidence : Confidence
deriving DecidableEq

/-- The deduplication key of a Finding: its rule id and location (§3). -/
def Finding.key (f : Finding) : String × Nat × Option Nat :=
  (f.ruleId, f.declId, f.stmtOffset)

/-- Modelled from the spec: the read-only threshold configuration
(§4.2 F and M defaults, §4.2 keyword-cluster table, §4.8 small-unit
policy). -/
structure Config where
  F : Nat
  M : Nat
  smallUnitLimit : Nat
  clusterTable : List (String × String)
deriving DecidableEq

/-- The default configuration: F = 7, M = 15 (§4.2). -/
def defaultConfig : Config :=
  { F := 7, M := 15, smallUnitLimit := 8, clusterTable := [] }

/-! ### Detectors (modelled from §4.2–§4.7) -/

def godEntityId : String := "god-entity"
def singleImplementorId : String := "single-implementor"
def lockAcrossSuspendId : String := "lock-across-suspend"
def raceId : String := "race"
def blockingIoInAsyncId : String := "scheduler-thread-stall"
def deadlockId : String := "deadlock-cycle"
def unnecessaryLifetimeId : String := "unnecessary-lifetime"
def selfReferenceId : String := "self-reference-without-indirection"
def contextLossId : String := "context-loss"
def abortOnErrorId : String := "abort-on-error"
def silentDiscardId : String := "silent-discard"
def undocumentedUnsafeId : String := "undocumented-unsafe"
def useAfterFreeId : String := "use-after-free"
def misleadingSafetyId : String := "misleading-safety"
def rawArithmeticId : String := "raw-arithmetic-unguarded"
def danglingFfiId : String := "dangling-ffi-capture"

/-- Modelled from the spec: number of methods defined by impl blocks whose
target is the named struct (§3 StructDecl methods live in impl blocks). -/
def methodCount (u : CompilationUnit) (sname : String) : Nat :=
  (u.decls.map fun d =>
    match d with
    | .implB i => if i.targetName = sname then i.methodNames.length else 0
    | _ => 0).sum

/-- Modelled from the spec: number of impl blocks implementing the named
trait (§4.2 single-implementor check). -/
def implementorCount (u : CompilationUnit) (tname : String) : Nat :=
  u.decls.countP fun d =>
    match d with
    | .implB i => i.traitName = some tname
    | _ => false

/-- Modelled from the spec: the domain-noun cluster of a field name,
looked up in the configurable keyword-cluster table (§4.2). -/
def clusterOf (cfg : Config) (fieldName : String) : String :=
  ((cfg.clusterTable.lookup fieldName).getD fieldName)

/-- Modelled from the spec: number of distinct domain-noun clusters spanned
by a struct's fields (§4.2 God-entity). -/
def clusterCount (cfg : Config) (s : StructDecl) : Nat :=
  ((s.fields.map fun fl => clusterOf cfg fl.name).dedup).length

/-- Modelled from the spec: the Architecture detector (§4.2).  God-entity:
field count > F and method count > M and fields span ≥ 5 clusters →
Critical/Likely.  Single-implementor trait with no FFI boundary →
Warning/Possible. -/
def architectureDetect (cfg : Config) (u : CompilationUnit) : List Finding :=
  u.decls.flatMap fun d =>
    match d with
    | .structD s =>
        if cfg.F < s.fields.length ∧ cfg.M < methodCount u s.name ∧
            5 ≤ clusterCount cfg s then
          [{ ruleId := godEntityId, domains := [.architecture],
             severity := .critical,
             message := "aggregate bundling many unrelated responsibilities",
             declId := s.id, stmtOffset := none, confidence := .likely }]
        else []
    | .traitD t =>
        if implementorCount u t.name = 1 ∧ t.crossesFfi = false then
          [{ ruleId := singleImplementorId, domains := [.architecture],
             severity := .warning,
             message := "trait with exactly one implementor",
             declId := t.id, stmtOffset := none, confidence := .possible }]
        else []
    | _ => []

/-- Modelled from the spec: true when the statement list starts a
suspension point before any lock release (§4.3). -/
def suspendBeforeRelease : List Stmt → Bool
  | [] => false
  | s :: rest =>
      if s.isSuspend then true
      else if s.isRelease then false
      else suspendBeforeRelease rest

/-- Modelled from the spec: true when some lock-acquire is followed in the
sequence by a suspension point with no intervening release (§4.3
lock-across-suspend trigger). -/
def lockThenSuspend : List Stmt → Bool
  | [] => false
  | s :: rest => (s.isAcquire && suspendBeforeRelease rest) || lockThenSuspend rest

/-- The lock-acquisition orders of the tasks spawned in a statement
sequence (§4.3 deadlock rule: one order list per task). -/
def taskLockOrders (l : List Stmt) : List (List Nat) :=
  l.filterMap fun s =>
    match s with
    | .spawnTask _ ord => some ord
    | _ => none

/-- All ordered pairs (earlier, later) of one task's acquisition order. -/
def laterPairs : List Nat → List (Nat × Nat)
  | [] => []
  | a :: rest => (rest.map fun b => (a, b)) ++ laterPairs rest

/-- Modelled from the spec: the acquisition-order graph across tasks
(§4.3): an edge a → b when some task acquires a before b. -/
def acquisitionEdges (l : List Stmt) : List (Nat × Nat) :=
  (taskLockOrders l).flatMap laterPairs

def reachStep (edges : List (Nat × Nat)) (seen : List Nat) : List Nat :=
  (seen ++ edges.filterMap fun e =>
    if e.1 ∈ seen then some e.2 else none).dedup

def iterateReach (edges : List (Nat × Nat)) : Nat → List Nat → List Nat
  | 0, seen => seen
  | n + 1, seen => iterateReach edges n (reachStep edges seen)

/-- Modelled from the spec: cycle detection on the acquisition-order graph
(§4.3): some edge a → b with a reachable again from b. -/
def hasCycle (edges : List (Nat × Nat)) : Bool :=
  edges.any fun e => decide (e.1 ∈ iterateReach edges edges.length [e.2])

def lockAcrossSuspendFinding (i : Nat) : Finding :=
  { ruleId := lockAcrossSuspendId, domains := [.concurrency],
    severity := .critical,
    message := "exclusive lock held across a suspension point",
    declId := i, stmtOffset := none, confidence := .definite }

def raceFinding (i : Nat) : Finding :=
  { ruleId := raceId, domains := [.concurrency], severity := .critical,
    message := "shared mutable state mutated by concurrent tasks without synchronization",
    declId := i, stmtOffset := none, confidence := .likely }

def stallFinding (i : Nat) : Finding :=
  { ruleId := blockingIoInAsyncId, domains := [.concurrency],
    severity := .critical,
    message := "blocking statement inside a cooperatively scheduled function",
    declId := i, stmtOffset := none, confidence := .definite }

def deadlockFinding (i : Nat) : Finding :=
  { ruleId := deadlockId, domains := [.concurrency], severity := .critical,
    message := "inconsistent lock acquisition order across tasks",
    declId := i, stmtOffset := none, confidence := .likely }

/-- Modelled from the spec: the Concurrency detector's Critical rules
(§4.3): lock-across-suspend; race (shared mutable state mutated by ≥ 2
independently scheduled tasks with no intervening synchronization);
blocking I/O inside a cooperatively-scheduled function; and a cycle in the
lock-acquisition-order graph across ≥ 2 tasks. -/
def concurrencyDetect (_cfg : Config) (u : CompilationUnit) : List Finding :=
  u.decls.flatMap fun d =>
    match d with
    | .funD f =>
        (if lockThenSuspend f.stmts then [lockAcrossSuspendFinding f.id] else []) ++
        (if 2 ≤ f.stmts.countP Stmt.isRacySpawn then [raceFinding f.id] else []) ++
        (if f.isAsync = true ∧ f.stmts.any Stmt.isBlockingIo = true then
          [stallFinding f.id] else []) ++
        (if 2 ≤ (taskLockOrders f.stmts).length ∧
            hasCycle (acquisitionEdges f.stmts) = true then
          [deadlockFinding f.id] else [])
    | _ => []

/-- Modelled from the spec: occurrences of a named lifetime across the
parameter type descriptors and the return type (§4.4). -/
def lifetimeOccCount (f : FunctionDecl) (l : String) : Nat :=
  ((f.params.flatMap TypeDesc.lifetimes).count l) + (f.retType.lifetimes.count l)

/-- Modelled from the spec: a lifetime is unrelated when no declared
lifetime relation mentions it (§4.4). -/
def unrelatedLifetime (f : FunctionDecl) (l : String) : Bool :=
  f.lifetimeRelations.all fun p => !(p.1 == l) && !(p.2 == l)

/-- Modelled from the spec: the Borrowing/Lifetime detector (§4.4):
unnecessary-lifetime (Possible) for a named lifetime appearing exactly once
and unrelated to any other parameter; self-reference-without-indirection
(Critical, always, regardless of documentation) for a field pointing into
data owned by the same aggregate. -/
def borrowingDetect (_cfg : Config) (u : CompilationUnit) : List Finding :=
  u.decls.flatMap fun d =>
    match d with
    | .funD f =>
        f.lifetimeParams.filterMap fun l =>
          if lifetimeOccCount f l = 1 ∧ unrelatedLifetime f l = true then
            some { ruleId := unnecessaryLifetimeId, domains := [.borrowing],
                   severity := .warning, message := l,
                   declId := f.id, stmtOffset := none, confidence := .possible }
          else none
    | .structD s =>
        s.fields.filterMap fun fl =>
          if fl.refInto = some s.id then
            some { ruleId := selfReferenceId, domains := [.borrowing],
                   severity := .critical, message := fl.name,
                   declId := s.id, stmtOffset := none, confidence := .definite }
          else none
    | _ => []

def contextLossFinding (i : Nat) : Finding :=
  { ruleId := contextLossId, domains := [.errorHandling],
    severity := .warning,
    message := "error converted to unstructured form",
    declId := i, stmtOffset := none, confidence := .likely }

def abortFinding (i : Nat) : Finding :=
  { ruleId := abortOnErrorId, domains := [.errorHandling],
    severity := .critical,
    message := "unconditional abort on error in a reachable runtime path",
    declId := i, stmtOffset := none, confidence := .definite }

def startupAbortFinding (i : Nat) : Finding :=
  { ruleId := abortOnErrorId, domains := [.errorHandling],
    severity := .info,
    message := "abort on error in one-time startup code",
    declId := i, stmtOffset := none, confidence := .definite }

def discardRequestFinding (i : Nat) : Finding :=
  { ruleId := silentDiscardId, domains := [.errorHandling],
    severity := .critical,
    message := "error silently discarded on a request path",
    declId := i, stmtOffset := none, confidence := .likely }

def discardFinding (i : Nat) : Finding :=
  { ruleId := silentDiscardId, domains := [.errorHandling],
    severity := .warning,
    message := "error observed but neither logged nor surfaced",
    declId := i, stmtOffset := none, confidence := .likely }

/-- Modelled from the spec: the Error-Handling detector (§4.5):
context-loss (Warning); unconditional abort-on-error — Critical in a
reachable runtime path, Info in one-time startup code; silent discard —
Critical on a request path, Warning otherwise. -/
def errorHandlingDetect (_cfg : Config) (u : CompilationUnit) : List Finding :=
  u.decls.flatMap fun d =>
    match d with
    | .funD f =>
        (if Stmt.errorStringify ∈ f.stmts then [contextLossFinding f.id] else []) ++
        (if Stmt.unwrapCall true ∈ f.stmts then [abortFinding f.id] else []) ++
        (if Stmt.unwrapCall false ∈ f.stmts then [startupAbortFinding f.id] else []) ++
        (if Stmt.errorDiscarded true ∈ f.stmts then [discardRequestFinding f.id] else []) ++
        (if Stmt.errorDiscarded false ∈ f.stmts then [discardFinding f.id] else [])
    | _ => []

def undocFinding (i k : Nat) : Finding :=
  { ruleId := undocumentedUnsafeId, domains := [.systems],
    severity := .critical,
    message := "unsafe operation without documented validated precondition",
    declId := i, stmtOffset := some k, confidence := .definite }

def uafFinding (i k : Nat) : Finding :=
  { ruleId := useAfterFreeId, domains := [.systems], severity := .critical,
    message := "dereference of a pointer whose owning scope has ended",
    declId := i, stmtOffset := some k, confidence := .definite }

def misleadingFinding (i k : Nat) : Finding :=
  { ruleId := misleadingSafetyId, domains := [.systems],
    severity := .critical,
    message := "documented precondition contradicted by the constructing code",
    declId := i, stmtOffset := some k, confidence := .definite }

def rawArithFinding (i k : Nat) : Finding :=
  { ruleId := rawArithmeticId, domains := [.systems], severity := .critical,
    message := "raw pointer arithmetic with no overflow or bounds guard",
    declId := i, stmtOffset := some k, confidence := .definite }

def danglingFfiFinding (i k : Nat) : Finding :=
  { ruleId := danglingFfiId, domains := [.systems], severity := .critical,
    message := "borrowed pointer passed to FFI with no lifetime tie",
    declId := i, stmtOffset := some k, confidence := .likely }

/-- The owners whose scope-end markers occur in a statement list (§4.6,
§9). -/
def scopeOwners (l : List Stmt) : List Nat :=
  l.filterMap fun s =>
    match s with
    | .scopeEnd o => some o
    | _ => none

/-- The staleness accumulator after one statement: a scope-end marker adds
its owner to the set of ended owners (§4.6: a pointer becomes "stale" once
its source's scope-end statement is observed). -/
def endedAfter (ended : List Nat) : Stmt → List Nat
  | .scopeEnd o => o :: ended
  | _ => ended

/-- Modelled from the spec: scan of a statement sequence by the
Systems/Unsafe detector (§4.6), carrying the set of already-ended owners.
Per statement it emits: undocumented-unsafe (Critical) for a pointer
dereference lacking a documented, entry-validated precondition;
use-after-free (Critical) for a dereference whose source owner's scope has
ended; misleading-safety (Critical) for a documented precondition
contradicted by the constructing code; raw-arithmetic (Critical) for
unguarded pointer arithmetic; dangling-FFI (Critical) for an FFI call with
no lifetime tie. -/
def systemsScanAux (declId : Nat) : Nat → List Nat → List Stmt → List Finding
  | _, _, [] => []
  | k, ended, s :: rest =>
      (match s with
       | .pointerDeref doc val src ctr =>
           (if doc && val then [] else [undocFinding declId k]) ++
           (if src ∈ ended then [uafFinding declId k] else []) ++
           (if doc && ctr then [misleadingFinding declId k] else [])
       | .ptrArithmetic g => if g then [] else [rawArithFinding declId k]
       | .ffiCall t => if t then [] else [danglingFfiFinding declId k]
       | _ => []) ++ systemsScanAux declId (k + 1) (endedAfter ended s) rest

/-- Modelled from the spec: the Systems/Unsafe detector (§4.6). -/
def systemsDetect (_cfg : Config) (u : CompilationUnit) : List Finding :=
  u.decls.flatMap fun d =>
    match d with
    | .funD f => systemsScanAux f.id 0 [] f.stmts
    | _ => []

/-- Modelled from the spec: the Type-System detector (§4.7), restricted to
the single-implementor rule it shares with §4.2: a single-implementor trait
used only internally, same rule id and location as the Architecture
finding so the Aggregator can merge the cross-domain overlap. -/
def typeSystemDetect (_cfg : Config) (u : CompilationUnit) : List Finding :=
  u.decls.flatMap fun d =>
    match d with
    | .traitD t =>
        if implementorCount u t.name = 1 ∧ t.internalOnly = true then
          [{ ruleId := singleImplementorId, domains := [.typeSystem],
             severity := .warning,
             message := "single-implementor trait used only internally",
             declId := t.id, stmtOffset := none, confidence := .possible }]
        else []
    | _ => []

/-- Dispatch a domain to its detector. -/
def runDetector : Domain → Config → CompilationUnit → List Finding
  | .architecture => architectureDetect
  | .concurrency => concurrencyDetect
  | .borrowing => borrowingDetect
  | .errorHandling => errorHandlingDetect
  | .systems => systemsDetect
  | .typeSystem => typeSystemDetect

/-! ### Triage Router (modelled from §4.8) -/

/-- Modelled from the spec: true when a function holds a lock-acquire
followed somewhere later by a suspension point — the "async functions with
lock/suspend adjacency" signal of §4.8. -/
def acquireThenSuspend : List Stmt → Bool
  | [] => false
  | s :: rest => (s.isAcquire && rest.any Stmt.isSuspend) || acquireThenSuspend rest

/-- Modelled from the spec: the per-domain structural signal computed in
one pass, following §4.8's list: field counts (architecture), async
functions with lock/suspend adjacency (concurrency),
lifetime-parameters-per-signature (borrowing), unsafe-block counts — the
number of unsafe operation statements, which all sit in unsafe blocks
(systems), and trait counts (type system).  §4.8's list names no
error-handling signal; it is modelled as the count of error-handling
statements (unwrap calls, discarded errors, stringified errors). -/
def signalOf (d : Domain) (u : CompilationUnit) : Nat :=
  match d with
  | .architecture =>
      (u.decls.map fun dd =>
        match dd with
        | .structD s => s.fields.length
        | _ => 0).sum
  | .concurrency =>
      u.decls.countP fun dd =>
        match dd with
        | .funD f => acquireThenSuspend f.stmts
        | _ => false
  | .borrowing =>
      (u.decls.map fun dd =>
        match dd with
        | .funD f => f.lifetimeParams.length
        | _ => 0).sum
  | .errorHandling =>
      (u.decls.map fun dd =>
        match dd with
        | .funD f => f.stmts.countP Stmt.isErrStmt
        | _ => 0).sum
  | .systems =>
      (u.decls.map fun dd =>
        match dd with
        | .funD f => f.stmts.countP Stmt.isUnsafeOp
        | _ => 0).sum
  | .typeSystem =>
      u.decls.countP fun dd =>
        match dd with
        | .traitD _ => true
        | _ => false

/-- Modelled from the spec: the Triage Router's selection (§4.8 default
policy): run all detectors on small units; on large units skip a detector
only when its triggering signal count is exactly zero. -/
def routerSelect (cfg : Config) (u : CompilationUnit) : List Domain :=
  if u.decls.length ≤ cfg.smallUnitLimit then allDomains
  else allDomains.filter fun d => decide (0 < signalOf d u)

/-! ### Aggregator and pipeline (modelled from §2, §3, §6) -/

/-- Modelled from the spec: merge one Finding into an accumulator — a
duplicate (rule_id, location) pair is merged with provenance retained
(domains concatenated), otherwise the Finding is appended (§3
invariants). -/
def mergeInto (acc : List Finding) (f : Finding) : List Finding :=
  if acc.any fun g => decide (g.key = f.key) then
    acc.map fun g =>
      if g.key = f.key then { g with domains := g.domains ++ f.domains } else g
  else acc ++ [f]

/-- Modelled from the spec: the Finding Aggregator (§2, §3). -/
def aggregate (l : List Finding) : List Finding := l.foldl mergeInto []

/-- Ordering used for the final Finding sequence (§6: declaration source
order, then rule id, then statement offset). -/
def findingLE (f g : Finding) : Bool :=
  (decide (f.declId < g.declId)) ||
  ((decide (f.declId = g.declId)) &&
    ((decide (f.ruleId < g.ruleId)) ||
     ((decide (f.ruleId = g.ruleId)) &&
      decide ((f.stmtOffset.getD 0) ≤ (g.stmtOffset.getD 0)))))

/-- Modelled from the spec: the full per-unit pipeline — Router selection,
detectors, Aggregator, ordered output (§2, §6). -/
def analyzeUnit (cfg : Config) (u : CompilationUnit) : List Finding :=
  List.insertionSort (fun f g => findingLE f g = true)
    (aggregate ((routerSelect cfg u).flatMap fun d => runDetector d cfg u))

/-! ### Model construction and batch analysis (modelled from §4.1, §7) -/

/-- Modelled from the spec: raw input for one declaration, possibly
malformed (§4.1). -/
inductive RawDecl where
  | valid (d : Declaration)
  | malformed (msg : String)
deriving DecidableEq

/-- Modelled from the spec: raw input for one compilation unit. -/
structure RawUnit where
  rawDecls : List RawDecl
deriving DecidableEq

/-- Modelled from the spec: the model-construction failure (§4.1, §7). -/
inductive ModelConstructionError where
  | invalidDecl (msg : String)
deriving DecidableEq

/-- Modelled from the spec: reduce raw input to valid declarations, failing
on the first malformed one (§4.1). -/
def collectDecls : List RawDecl → Except ModelConstructionError (List Declaration)
  | [] => .ok []
  | .valid d :: rest => (collectDecls rest).map fun ds => d :: ds
  | .malformed msg :: _ => .error (.invalidDecl msg)

/-- Modelled from the spec: Structural Model construction (§4.1). -/
def buildModel (r : RawUnit) : Except ModelConstructionError CompilationUnit :=
  (collectDecls r.rawDecls).map fun ds => { decls := ds }

/-- Modelled from the spec: analysis of one raw unit — detectors run only on
a successfully constructed model (§4.1, §7). -/
def analyzeRaw (cfg : Config) (r : RawUnit) :
    Except ModelConstructionError (List Finding) :=
  (buildModel r).map (analyzeUnit cfg)

/-- Modelled from the spec: batch analysis, one independent result per unit
(§5, §7). -/
def analyzeBatch (cfg : Config) (rs : List RawUnit) :
    List (Except ModelConstructionError (List Finding)) :=
  rs.map (analyzeRaw cfg)

/-! ### Statement classification lemmas -/

theorem Stmt.isAcquire_iff {s : Stmt} : s.isAcquire = true ↔ s = .lockAcquire := by
  cases s <;> simp [Stmt.isAcquire]

theorem Stmt.isRelease_iff {s : Stmt} : s.isRelease = true ↔ s = .lockRelease := by
  cases s <;> simp [Stmt.isRelease]

theorem Stmt.isSuspend_iff {s : Stmt} : s.isSuspend = true ↔ s = .suspendPoint := by
  cases s <;> simp [Stmt.isSuspend]

/-- The abstract shape named by the spec (§4.3): a lock-acquire followed, in
the statement sequence, by a suspension point with no intervening
release. -/
def LockAcrossSuspendShape (l : List Stmt) : Prop :=
  ∃ pre mid post,
    l = pre ++ Stmt.lockAcquire :: (mid ++ Stmt.suspendPoint :: post) ∧
    Stmt.lockRelease ∉ mid

theorem suspendBeforeRelease_of_shape :
    ∀ (mid post : List Stmt), Stmt.lockRelease ∉ mid →
      suspendBeforeRelease (mid ++ Stmt.suspendPoint :: post) = true := by
  intro mid
  induction mid with
  | nil => intro post _; simp [suspendBeforeRelease, Stmt.isSuspend]
  | cons m mid ih =>
      intro post hm
      have hm' : Stmt.lockRelease ∉ mid := fun h => hm (List.mem_cons_of_mem _ h)
      have hmr : m.isRelease = false := by
        cases hmr : m.isRelease
        · rfl
        · exact absurd (Stmt.isRelease_iff.mp hmr ▸ List.mem_cons_self m _) hm
      cases hms : m.isSuspend
      · simpa [suspendBeforeRelease, hms, hmr] using ih post hm'
      · simp [suspendBeforeRelease, hms]

theorem shape_of_suspendBeforeRelease :
    ∀ (l : List Stmt), suspendBeforeRelease l = true →
      ∃ mid post, l = mid ++ Stmt.suspendPoint :: post ∧ Stmt.lockRelease ∉ mid := by
  intro l
  induction l with
  | nil => intro h; simp [suspendBeforeRelease] at h
  | cons s rest ih =>
      intro h
      cases hs : s.isSuspend
      · cases hr : s.isRelease
        · simp only [suspendBeforeRelease, hs, hr, if_false] at h
          obtain ⟨mid, post, heq, hnm⟩ := ih h
          refine ⟨s :: mid, post, by rw [heq]; rfl, ?_⟩
          intro hmem
          rcases List.mem_cons.mp hmem with hsh | hmm
          · rw [← hsh] at hr
            simp [Stmt.isRelease] at hr
          · exact hnm hmm
        · simp [suspendBeforeRelease, hs, hr] at h
      · exact ⟨[], rest, by rw [Stmt.isSuspend_iff.mp hs]; rfl, by simp⟩

theorem lockThenSuspend_iff {l : List Stmt} :
    lockThenSuspend l = true ↔ LockAcrossSuspendShape l := by
  constructor
  · induction l with
    | nil => intro h; simp [lockThenSuspend] at h
    | cons s rest ih =>
        intro h
        simp only [lockThenSuspend, Bool.or_eq_true, Bool.and_eq_true] at h
        rcases h with ⟨ha, hsr⟩ | hright
        · obtain ⟨mid, post, heq, hnm⟩ := shape_of_suspendBeforeRelease rest hsr
          exact ⟨[], mid, post, by rw [Stmt.isAcquire_iff.mp ha, heq]; rfl, hnm⟩
        · obtain ⟨pre, mid, post, heq, hnm⟩ := ih hright
          exact ⟨s :: pre, mid, post, by rw [heq]; rfl, hnm⟩
  · rintro ⟨pre, mid, post, heq, hnm⟩
    subst heq
    induction pre with
    | nil =>
        simp only [List.nil_append, lockThenSuspend, Bool.or_eq_true, Bool.and_eq_true]
        exact Or.inl ⟨rfl, suspendBeforeRelease_of_shape mid post hnm⟩
    | cons p pre ih =>
        simp only [List.cons_append, lockThenSuspend, Bool.or_eq_true]
        exact Or.inr ih

theorem any_isSuspend_of_suspendBeforeRelease :
    ∀ (l : List Stmt), suspendBeforeRelease l = true →
      l.any Stmt.isSuspend = true := by
  intro l
  induction l with
  | nil => intro h; simp [suspendBeforeRelease] at h
  | cons s rest ih =>
      intro h
      cases hs : s.isSuspend
      · cases hr : s.isRelease
        · simp only [suspendBeforeRelease, hs, hr, if_false] at h
          simp [List.any_cons, ih h]
        · simp [suspendBeforeRelease, hs, hr] at h
      · simp [List.any_cons, hs]

theorem acquireThenSuspend_of_lockThenSuspend :
    ∀ {l : List Stmt}, lockThenSuspend l = true → acquireThenSuspend l = true := by
  intro l
  induction l with
  | nil => intro h; simp [lockThenSuspend] at h
  | cons s rest ih =>
      intro h
      simp only [lockThenSuspend, Bool.or_eq_true, Bool.and_eq_true] at h
      simp only [acquireThenSuspend, Bool.or_eq_true, Bool.and_eq_true]
      rcases h with ⟨ha, hsr⟩ | hright
      · exact Or.inl ⟨ha, any_isSuspend_of_suspendBeforeRelease rest hsr⟩
      · exact Or.inr (ih hright)

/-! ### Detector membership characterizations -/

theorem id_inj_of_wellFormed {u : CompilationUnit} (h : u.WellFormed)
    {d₁ d₂ : Declaration} (h₁ : d₁ ∈ u.decls) (h₂ : d₂ ∈ u.decls)
    (hid : d₁.id = d₂.id) : d₁ = d₂ :=
  List.inj_on_of_nodup_map h h₁ h₂ hid

theorem mem_concurrencyDetect {cfg : Config} {u : CompilationUnit} {fd : Finding} :
    fd ∈ concurrencyDetect cfg u ↔
      ∃ f, Declaration.funD f ∈ u.decls ∧
        ((lockThenSuspend f.stmts = true ∧ fd = lockAcrossSuspendFinding f.id) ∨
         (2 ≤ f.stmts.countP Stmt.isRacySpawn ∧ fd = raceFinding f.id) ∨
         ((f.isAsync = true ∧ f.stmts.any Stmt.isBlockingIo = true) ∧
           fd = stallFinding f.id) ∨
         ((2 ≤ (taskLockOrders f.stmts).length ∧
            hasCycle (acquisitionEdges f.stmts) = true) ∧
           fd = deadlockFinding f.id)) := by
  constructor
  · intro h
    obtain ⟨d, hd, hfd⟩ := List.mem_flatMap.mp h
    cases d with
    | funD f =>
        refine ⟨f, hd, ?_⟩
        simp only [List.mem_append] at hfd
        rcases hfd with ((h1 | h2) | h3) | h4
        · cases hls : lockThenSuspend f.stmts
          · rw [hls] at h1
            simp at h1
          · rw [hls] at h1
            simp only [if_true] at h1
            exact Or.inl ⟨rfl, List.mem_singleton.mp h1⟩
        · by_cases hc : 2 ≤ f.stmts.countP Stmt.isRacySpawn
          · rw [if_pos hc] at h2
            exact Or.inr (Or.inl ⟨hc, List.mem_singleton.mp h2⟩)
          · rw [if_neg hc] at h2
            simp at h2
        · by_cases hc : f.isAsync = true ∧ f.stmts.any Stmt.isBlockingIo = true
          · rw [if_pos hc] at h3
            exact Or.inr (Or.inr (Or.inl ⟨hc, List.mem_singleton.mp h3⟩))
          · rw [if_neg hc] at h3
            simp at h3
        · by_cases hc : 2 ≤ (taskLockOrders f.stmts).length ∧
              hasCycle (acquisitionEdges f.stmts) = true
          · rw [if_pos hc] at h4
            exact Or.inr (Or.inr (Or.inr ⟨hc, List.mem_singleton.mp h4⟩))
          · rw [if_neg hc] at h4
            simp at h4
    | structD s => simp at hfd
    | traitD t => simp at hfd
    | implB i => simp at hfd
    | enumD e => simp at hfd
  · rintro ⟨f, hf, hcase⟩
    refine List.mem_flatMap.mpr ⟨.funD f, hf, ?_⟩
    show fd ∈ _ ++ _ ++ _ ++ _
    simp only [List.mem_append]
    rcases hcase with ⟨hc, rfl⟩ | ⟨hc, rfl⟩ | ⟨hc, rfl⟩ | ⟨hc, rfl⟩
    · exact Or.inl (Or.inl (Or.inl (by rw [hc]; simp)))
    · exact Or.inl (Or.inl (Or.inr (by rw [if_pos hc]; simp)))
    · exact Or.inl (Or.inr (by rw [if_pos hc]; simp))
    · exact Or.inr (by rw [if_pos hc]; simp)

theorem mem_architectureDetect {cfg : Config} {u : CompilationUnit} {fd : Finding} :
    fd ∈ architectureDetect cfg u ↔
      (∃ s : StructDecl, Declaration.structD s ∈ u.decls ∧
        (cfg.F < s.fields.length ∧ cfg.M < methodCount u s.name ∧
          5 ≤ clusterCount cfg s) ∧
        fd = { ruleId := godEntityId, domains := [.architecture],
               severity := .critical,
               message := "aggregate bundling many unrelated responsibilities",
               declId := s.id, stmtOffset := none, confidence := .likely }) ∨
      (∃ t : TraitDecl, Declaration.traitD t ∈ u.decls ∧
        (implementorCount u t.name = 1 ∧ t.crossesFfi = false) ∧
        fd = { ruleId := singleImplementorId, domains := [.architecture],
               severity := .warning,
               message := "trait with exactly one implementor",
               declId := t.id, stmtOffset := none, confidence := .possible }) := by
  constructor
  · intro h
    obtain ⟨d, hd, hfd⟩ := List.mem_flatMap.mp h
    cases d with
    | structD s =>
        by_cases hc : cfg.F < s.fields.length ∧ cfg.M < methodCount u s.name ∧
            5 ≤ clusterCount cfg s
        · simp only [architectureDetect, if_pos hc] at hfd
          exact Or.inl ⟨s, hd, hc, List.mem_singleton.mp hfd⟩
        · simp [architectureDetect, if_neg hc] at hfd
    | traitD t =>
        by_cases hc : implementorCount u t.name = 1 ∧ t.crossesFfi = false
        · simp only [architectureDetect, if_pos hc] at hfd
          exact Or.inr ⟨t, hd, hc, List.mem_singleton.mp hfd⟩
        · simp [architectureDetect, if_neg hc] at hfd
    | implB i => simp [architectureDetect] at hfd
    | funD f => simp [architectureDetect] at hfd
    | enumD e => simp [architectureDetect] at hfd
  · rintro (⟨s, hs, hc, rfl⟩ | ⟨t, ht, hc, rfl⟩)
    · exact List.mem_flatMap.mpr ⟨.structD s, hs, by simp [architectureDetect, if_pos hc]⟩
    · exact List.mem_flatMap.mpr ⟨.traitD t, ht, by simp [architectureDetect, if_pos hc]⟩

theorem mem_borrowingDetect {cfg : Config} {u : CompilationUnit} {fd : Finding} :
    fd ∈ borrowingDetect cfg u ↔
      (∃ f : FunctionDecl, Declaration.funD f ∈ u.decls ∧
        ∃ l ∈ f.lifetimeParams,
          (lifetimeOccCount f l = 1 ∧ unrelatedLifetime f l = true) ∧
          fd = { ruleId := unnecessaryLifetimeId, domains := [.borrowing],
                 severity := .warning, message := l,
                 declId := f.id, stmtOffset := none, confidence := .possible }) ∨
      (∃ s : StructDecl, Declaration.structD s ∈ u.decls ∧
        ∃ fl ∈ s.fields, fl.refInto = some s.id ∧
          fd = { ruleId := selfReferenceId, domains := [.borrowing],
                 severity := .critical, message := fl.name,
                 declId := s.id, stmtOffset := none, confidence := .definite }) := by
  constructor
  · intro h
    obtain ⟨d, hd, hfd⟩ := List.mem_flatMap.mp h
    cases d with
    | funD f =>
        obtain ⟨l, hl, heq⟩ := List.mem_filterMap.mp hfd
        by_cases hc : lifetimeOccCount f l = 1 ∧ unrelatedLifetime f l = true
        · simp only [if_pos hc, Option.some.injEq] at heq
          exact Or.inl ⟨f, hd, l, hl, hc, heq.symm⟩
        · simp [if_neg hc] at heq
    | structD s =>
        obtain ⟨fl, hfl, heq⟩ := List.mem_filterMap.mp hfd
        by_cases hc : fl.refInto = some s.id
        · simp only [if_pos hc, Option.some.injEq] at heq
          exact Or.inr ⟨s, hd, fl, hfl, hc, heq.symm⟩
        · simp [if_neg hc] at heq
    | traitD t => simp [borrowingDetect] at hfd
    | implB i => simp [borrowingDetect] at hfd
    | enumD e => simp [borrowingDetect] at hfd
  · rintro (⟨f, hf, l, hl, hc, rfl⟩ | ⟨s, hs, fl, hfl, hc, rfl⟩)
    · exact List.mem_flatMap.mpr
        ⟨.funD f, hf, List.mem_filterMap.mpr ⟨l, hl, by simp [if_pos hc]⟩⟩
    · exact List.mem_flatMap.mpr
        ⟨.structD s, hs, List.mem_filterMap.mpr ⟨fl, hfl, by simp [if_pos hc]⟩⟩

theorem mem_errorHandlingDetect {cfg : Config} {u : CompilationUnit} {fd : Finding} :
    fd ∈ errorHandlingDetect cfg u ↔
      ∃ f : FunctionDecl, Declaration.funD f ∈ u.decls ∧
        ((Stmt.errorStringify ∈ f.stmts ∧ fd = contextLossFinding f.id) ∨
         (Stmt.unwrapCall true ∈ f.stmts ∧ fd = abortFinding f.id) ∨
         (Stmt.unwrapCall false ∈ f.stmts ∧ fd = startupAbortFinding f.id) ∨
         (Stmt.errorDiscarded true ∈ f.stmts ∧ fd = discardRequestFinding f.id) ∨
         (Stmt.errorDiscarded false ∈ f.stmts ∧ fd = discardFinding f.id)) := by
  constructor
  · intro h
    obtain ⟨d, hd, hfd⟩ := List.mem_flatMap.mp h
    cases d with
    | funD f =>
        refine ⟨f, hd, ?_⟩
        simp only [List.mem_append] at hfd
        rcases hfd with (((h1 | h2) | h3) | h4) | h5
        · by_cases hc : Stmt.errorStringify ∈ f.stmts
          · rw [if_pos hc] at h1
            exact Or.inl ⟨hc, List.mem_singleton.mp h1⟩
          · rw [if_neg hc] at h1
            simp at h1
        · by_cases hc : Stmt.unwrapCall true ∈ f.stmts
          · rw [if_pos hc] at h2
            exact Or.inr (Or.inl ⟨hc, List.mem_singleton.mp h2⟩)
          · rw [if_neg hc] at h2
            simp at h2
        · by_cases hc : Stmt.unwrapCall false ∈ f.stmts
          · rw [if_pos hc] at h3
            exact Or.inr (Or.inr (Or.inl ⟨hc, List.mem_singleton.mp h3⟩))
          · rw [if_neg hc] at h3
            simp at h3
        · by_cases hc : Stmt.errorDiscarded true ∈ f.stmts
          · rw [if_pos hc] at h4
            exact Or.inr (Or.inr (Or.inr (Or.inl ⟨hc, List.mem_singleton.mp h4⟩)))
          · rw [if_neg hc] at h4
            simp at h4
        · by_cases hc : Stmt.errorDiscarded false ∈ f.stmts
          · rw [if_pos hc] at h5
            exact Or.inr (Or.inr (Or.inr (Or.inr ⟨hc, List.mem_singleton.mp h5⟩)))
          · rw [if_neg hc] at h5
            simp at h5
    | structD s => simp at hfd
    | traitD t => simp at hfd
    | implB i => simp at hfd
    | enumD e => simp at hfd
  · rintro ⟨f, hf, hcase⟩
    refine List.mem_flatMap.mpr ⟨.funD f, hf, ?_⟩
    show fd ∈ _ ++ _ ++ _ ++ _ ++ _
    simp only [List.mem_append]
    rcases hcase with ⟨hc, rfl⟩ | ⟨hc, rfl⟩ | ⟨hc, rfl⟩ | ⟨hc, rfl⟩ | ⟨hc, rfl⟩
    · exact Or.inl (Or.inl (Or.inl (Or.inl (by rw [if_pos hc]; simp))))
    · exact Or.inl (Or.inl (Or.inl (Or.inr (by rw [if_pos hc]; simp))))
    · exact Or.inl (Or.inl (Or.inr (by rw [if_pos hc]; simp)))
    · exact Or.inl (Or.inr (by rw [if_pos hc]; simp))
    · exact Or.inr (by rw [if_pos hc]; simp)

theorem mem_typeSystemDetect {cfg : Config} {u : CompilationUnit} {fd : Finding} :
    fd ∈ typeSystemDetect cfg u ↔
      ∃ t : TraitDecl, Declaration.traitD t ∈ u.decls ∧
        (implementorCount u t.name = 1 ∧ t.internalOnly = true) ∧
        fd = { ruleId := singleImplementorId, domains := [.typeSystem],
               severity := .warning,
               message := "single-implementor trait used only internally",
               declId := t.id, stmtOffset := none, confidence := .possible } := by
  constructor
  · intro h
    obtain ⟨d, hd, hfd⟩ := List.mem_flatMap.mp h
    cases d with
    | traitD t =>
        by_cases hc : implementorCount u t.name = 1 ∧ t.internalOnly = true
        · simp only [typeSystemDetect, if_pos hc] at hfd
          exact ⟨t, hd, hc, List.mem_singleton.mp hfd⟩
        · simp [typeSystemDetect, if_neg hc] at hfd
    | structD s => simp [typeSystemDetect] at hfd
    | implB i => simp [typeSystemDetect] at hfd
    | funD f => simp [typeSystemDetect] at hfd
    | enumD e => simp [typeSystemDetect] at hfd
  · rintro ⟨t, ht, hc, rfl⟩
    exact List.mem_flatMap.mpr ⟨.traitD t, ht, by simp [typeSystemDetect, if_pos hc]⟩

/-- One emitting condition of the Systems scan: the Finding `fd` arises
from the statement at relative offset `k` of `l`, where `ended` lists the
owners whose scopes ended before `l` and `n` is the absolute offset of
`l`'s head. -/
def SoundCase (i n : Nat) (ended : List Nat) (l : List Stmt) (fd : Finding)
    (k : Nat) : Prop :=
  (∃ doc val src ctr, l[k]? = some (.pointerDeref doc val src ctr) ∧
    (((doc && val) = false ∧ fd = undocFinding i (n + k)) ∨
     ((src ∈ ended ∨ src ∈ scopeOwners (l.take k)) ∧ fd = uafFinding i (n + k)) ∨
     ((doc && ctr) = true ∧ fd = misleadingFinding i (n + k)))) ∨
  (l[k]? = some (.ptrArithmetic false) ∧ fd = rawArithFinding i (n + k)) ∨
  (l[k]? = some (.ffiCall false) ∧ fd = danglingFfiFinding i (n + k))

theorem soundCase_lift {i n : Nat} {ended : List Nat} {s : Stmt}
    {rest : List Stmt} {fd : Finding} {k : Nat}
    (h : SoundCase i (n + 1) (endedAfter ended s) rest fd k) :
    SoundCase i n ended (s :: rest) fd (k + 1) := by
  have harith : n + 1 + k = n + (k + 1) := by omega
  unfold SoundCase at h ⊢
  rw [harith] at h
  rcases h with ⟨doc, val, src, ctr, hget, hcase⟩ | ⟨hget, heq⟩ | ⟨hget, heq⟩
  · refine Or.inl ⟨doc, val, src, ctr, by simpa using hget, ?_⟩
    rcases hcase with ⟨hdv, heq⟩ | ⟨hst, heq⟩ | ⟨hdc, heq⟩
    · exact Or.inl ⟨hdv, heq⟩
    · refine Or.inr (Or.inl ⟨?_, heq⟩)
      have htake : (s :: rest).take (k + 1) = s :: rest.take k := rfl
      rw [htake]
      cases s
      case scopeEnd o =>
        simp only [endedAfter] at hst
        have hso : scopeOwners (Stmt.scopeEnd o :: rest.take k) =
            o :: scopeOwners (rest.take k) := rfl
        rw [hso]
        rcases hst with hin | htk
        · rcases List.mem_cons.mp hin with rfl | hin'
          · exact Or.inr (List.mem_cons_self _ _)
          · exact Or.inl hin'
        · exact Or.inr (List.mem_cons_of_mem _ htk)
      all_goals simpa [endedAfter] using hst
    · exact Or.inr (Or.inr ⟨hdc, heq⟩)
  · exact Or.inr (Or.inl ⟨by simpa using hget, heq⟩)
  · exact Or.inr (Or.inr ⟨by simpa using hget, heq⟩)

theorem systemsScanAux_sound {i : Nat} :
    ∀ {n : Nat} {ended : List Nat} {l : List Stmt} {fd : Finding},
      fd ∈ systemsScanAux i n ended l → ∃ k, SoundCase i n ended l fd k := by
  intro n ended l
  induction l generalizing n ended with
  | nil => intro fd h; simp [systemsScanAux] at h
  | cons s rest ih =>
      intro fd h
      simp only [systemsScanAux] at h
      rcases List.mem_append.mp h with hhead | htail
      · cases s with
        | pointerDeref doc val src ctr =>
            simp only [List.mem_append] at hhead
            rcases hhead with (h1 | h2) | h3
            · cases hdv : doc && val
              · rw [hdv] at h1
                simp only [Bool.false_eq_true, if_false] at h1
                refine ⟨0, Or.inl ⟨doc, val, src, ctr, by simp, Or.inl ⟨hdv, ?_⟩⟩⟩
                rw [Nat.add_zero]
                exact List.mem_singleton.mp h1
              · rw [hdv] at h1
                simp at h1
            · by_cases hin : src ∈ ended
              · rw [if_pos hin] at h2
                refine ⟨0, Or.inl ⟨doc, val, src, ctr, by simp,
                  Or.inr (Or.inl ⟨Or.inl hin, ?_⟩)⟩⟩
                rw [Nat.add_zero]
                exact List.mem_singleton.mp h2
              · rw [if_neg hin] at h2
                simp at h2
            · cases hdc : doc && ctr
              · rw [hdc] at h3
                simp at h3
              · rw [hdc] at h3
                simp only [if_true] at h3
                refine ⟨0, Or.inl ⟨doc, val, src, ctr, by simp,
                  Or.inr (Or.inr ⟨hdc, ?_⟩)⟩⟩
                rw [Nat.add_zero]
                exact List.mem_singleton.mp h3
        | ptrArithmetic g =>
            cases g
            · simp only [Bool.false_eq_true, if_false] at hhead
              refine ⟨0, Or.inr (Or.inl ⟨by simp, ?_⟩)⟩
              rw [Nat.add_zero]
              exact List.mem_singleton.mp hhead
            · simp at hhead
        | ffiCall t =>
            cases t
            · simp only [Bool.false_eq_true, if_false] at hhead
              refine ⟨0, Or.inr (Or.inr ⟨by simp, ?_⟩)⟩
              rw [Nat.add_zero]
              exact List.mem_singleton.mp hhead
            · simp at hhead
        | lockAcquire => simp at hhead
        | lockRelease => simp at hhead
        | suspendPoint => simp at hhead
        | spawnTask m ord => simp at hhead
        | scopeEnd o => simp at hhead
        | unwrapCall p => simp at hhead
        | errorDiscarded p => simp at hhead
        | blockingIoCall => simp at hhead
        | errorStringify => simp at hhead
        | retStmt => simp at hhead
        | otherStmt => simp at hhead
      · obtain ⟨k, hk⟩ := ih htail
        exact ⟨k + 1, soundCase_lift hk⟩

theorem systemsDetect_sound {cfg : Config} {u : CompilationUnit} {fd : Finding}
    (h : fd ∈ systemsDetect cfg u) :
    ∃ f : FunctionDecl, Declaration.funD f ∈ u.decls ∧
      ∃ k, SoundCase f.id 0 [] f.stmts fd k := by
  obtain ⟨d, hd, hfd⟩ := List.mem_flatMap.mp h
  cases d with
  | funD f => exact ⟨f, hd, systemsScanAux_sound hfd⟩
  | structD s => simp [systemsDetect] at hfd
  | traitD t => simp [systemsDetect] at hfd
  | implB i => simp [systemsDetect] at hfd
  | enumD e => simp [systemsDetect] at hfd

theorem undoc_mem_scan {i : Nat} :
    ∀ {n : Nat} {ended : List Nat} {l : List Stmt} {k : Nat}
      {doc val : Bool} {src : Nat} {ctr : Bool},
      l[k]? = some (.pointerDeref doc val src ctr) → (doc && val) = false →
      undocFinding i (n + k) ∈ systemsScanAux i n ended l := by
  intro n ended l
  induction l generalizing n ended with
  | nil => intro k doc val src ctr hget _; simp at hget
  | cons s rest ih =>
      intro k doc val src ctr hget hdv
      simp only [systemsScanAux]
      apply List.mem_append.mpr
      cases k with
      | zero =>
          left
          have hs : s = Stmt.pointerDeref doc val src ctr := by simpa using hget
          subst hs
          simp [hdv]
      | succ k =>
          right
          have hget' : rest[k]? = some (Stmt.pointerDeref doc val src ctr) := by
            simpa using hget
          have harith : n + (k + 1) = n + 1 + k := by omega
          rw [harith]
          exact ih hget' hdv

theorem undoc_mem_detect {cfg : Config} {u : CompilationUnit}
    {f : FunctionDecl} (hf : Declaration.funD f ∈ u.decls) {k : Nat}
    {doc val : Bool} {src : Nat} {ctr : Bool}
    (hget : f.stmts[k]? = some (.pointerDeref doc val src ctr))
    (hdv : (doc && val) = false) :
    undocFinding f.id k ∈ systemsDetect cfg u := by
  refine List.mem_flatMap.mpr ⟨.funD f, hf, ?_⟩
  have h := @undoc_mem_scan f.id 0 [] f.stmts k doc val src ctr hget hdv
  simpa using h

/-- The dereferenced data's owner has a scope-end marker before offset `k`
(§4.6 staleness). -/
def staleAt (l : List Stmt) (k src : Nat) : Prop :=
  src ∈ scopeOwners (l.take k)

/-! ### Sample inputs used by witnesses -/

/-- A function mirroring the `fetch_and_cache` / `lock_across_await`
fixtures: a lock acquired, then a suspension point before the release. -/
def sampleLockFn : FunctionDecl :=
  { id := 0, name := "fetch_and_cache", params := [], retType := { lifetimes := [] },
    isAsync := true, isUnsafe := false, generics := [], lifetimeParams := [],
    lifetimeRelations := [],
    stmts := [.lockAcquire, .suspendPoint, .lockRelease] }

def sampleUnitAsync : CompilationUnit := { decls := [.funD sampleLockFn] }

/-- A function mirroring the `process_pointer` fixture: a pointer
dereference with no documented, entry-validated precondition. -/
def sampleUnsafeFn : FunctionDecl :=
  { id := 1, name := "process_pointer", params := [], retType := { lifetimes := [] },
    isAsync := false, isUnsafe := true, generics := [], lifetimeParams := [],
    lifetimeRelations := [],
    stmts := [.pointerDeref false false 0 false] }

def sampleUnitUnsafe : CompilationUnit := { decls := [.funD sampleUnsafeFn] }

/-! ### Claim theorems: concurrency and systems -/

/-- C3: for every function whose coarse statement sequence contains a
lock-acquire followed, in the same scope, by a suspension statement with no
intervening release, the Concurrency detector emits a Critical
lock-across-suspend Finding for that function; when no such
acquire/suspend pair exists — in particular when the lock is released
before the suspension point — it emits no such Finding. -/
theorem lock_across_suspend_critical (cfg : Config) (u : CompilationUnit)
    (f : FunctionDecl) (hmem : Declaration.funD f ∈ u.decls) (hwf : u.WellFormed) :
    (LockAcrossSuspendShape f.stmts →
      ∃ fd ∈ concurrencyDetect cfg u,
        fd.ruleId = lockAcrossSuspendId ∧ fd.severity = .critical ∧
        fd.declId = f.id) ∧
    (¬ LockAcrossSuspendShape f.stmts →
      ∀ fd ∈ concurrencyDetect cfg u, fd.declId = f.id →
        fd.ruleId ≠ lockAcrossSuspendId) := by
  constructor
  · intro hshape
    have hls : lockThenSuspend f.stmts = true := lockThenSuspend_iff.mpr hshape
    exact ⟨_, mem_concurrencyDetect.mpr ⟨f, hmem, Or.inl ⟨hls, rfl⟩⟩, rfl, rfl, rfl⟩
  · intro hnshape fd hfd hdecl
    obtain ⟨f', hf', hcase⟩ := mem_concurrencyDetect.mp hfd
    rcases hcase with ⟨hls', heq⟩ | ⟨_, heq⟩ | ⟨_, heq⟩ | ⟨_, heq⟩
    · intro _
      have hid : f'.id = f.id := by
        rw [heq] at hdecl
        simpa [lockAcrossSuspendFinding] using hdecl
      have hfe : Declaration.funD f' = Declaration.funD f :=
        id_inj_of_wellFormed hwf hf' hmem (by simpa [Declaration.id] using hid)
      injection hfe with hff
      subst hff
      exact hnshape (lockThenSuspend_iff.mp hls')
    · subst heq
      intro hr
      exact absurd (show raceId = lockAcrossSuspendId from hr) (by decide)
    · subst heq
      intro hr
      exact absurd (show blockingIoInAsyncId = lockAcrossSuspendId from hr) (by decide)
    · subst heq
      intro hr
      exact absurd (show deadlockId = lockAcrossSuspendId from hr) (by decide)

/-- Witness for C3 at the `fetch_and_cache` shape. -/
theorem lock_across_suspend_critical_witness :
    ∃ fd ∈ concurrencyDetect defaultConfig sampleUnitAsync,
      fd.ruleId = lockAcrossSuspendId ∧ fd.severity = .critical ∧
      fd.declId = sampleLockFn.id :=
  (lock_across_suspend_critical defaultConfig sampleUnitAsync sampleLockFn
      (by simp [sampleUnitAsync])
      (by unfold CompilationUnit.WellFormed; decide)).1
    ⟨[], [], [Stmt.lockRelease], rfl, by simp⟩

/-- The `lifetime_violation` fixture shape: the owner's scope ends, then a
documented, entry-validated dereference of a pointer into that owner's
data. -/
def staleDerefFn : FunctionDecl :=
  { id := 6, name := "lifetime_violation", params := [],
    retType := { lifetimes := [] },
    isAsync := false, isUnsafe := true, generics := [], lifetimeParams := [],
    lifetimeRelations := [],
    stmts := [.scopeEnd 7, .pointerDeref true true 7 false] }

def staleDerefUnit : CompilationUnit := { decls := [.funD staleDerefFn] }

/-- C6 counterexample: a pointer dereference carrying a documented,
entry-validated precondition is nonetheless flagged (Critical) by the
Systems detector at its offset, because the dereferenced pointer is stale —
§4.6's use-after-free rule fires regardless of documentation.  This refutes
the claim's "emits no finding when documented and entry-validated" half. -/
theorem documented_deref_flagged :
    staleDerefFn.stmts[1]? = some (.pointerDeref true true 7 false) ∧
    ∃ fd ∈ systemsDetect defaultConfig staleDerefUnit,
      fd.declId = staleDerefFn.id ∧ fd.stmtOffset = some 1 ∧
      fd.severity = .critical := by decide

/-- C6 (amended): a pointer dereference lacking the documentation or the
entry validation always produces a Critical undocumented-unsafe Finding at
its offset; a documented, entry-validated dereference produces no Systems
finding at its offset provided additionally the dereferenced pointer is
not stale (no earlier scope-end of its owner — else §4.6 use-after-free
fires) and its documentation is not contradicted by the constructing code
(else §4.6 misleading-safety fires). -/
theorem pointer_deref_precondition_refined (cfg : Config) (u : CompilationUnit)
    (f : FunctionDecl) (hmem : Declaration.funD f ∈ u.decls) (hwf : u.WellFormed)
    (k : Nat) (doc val : Bool) (src : Nat) (ctr : Bool)
    (hstmt : f.stmts[k]? = some (.pointerDeref doc val src ctr)) :
    ((doc && val) = true → ctr = false → ¬ staleAt f.stmts k src →
      ¬ ∃ fd ∈ systemsDetect cfg u, fd.declId = f.id ∧ fd.stmtOffset = some k) ∧
    ((doc && val) = false →
      ∃ fd ∈ systemsDetect cfg u, fd.ruleId = undocumentedUnsafeId ∧
        fd.severity = .critical ∧ fd.declId = f.id ∧ fd.stmtOffset = some k) := by
  constructor
  · rintro hdv hctr hstale ⟨fd, hfd, hdecl, hoff⟩
    obtain ⟨f', hf', k', hcase⟩ := systemsDetect_sound hfd
    rcases hcase with ⟨doc', val', src', ctr', hget', hsub⟩ | ⟨hget', heq⟩ | ⟨hget', heq⟩
    · rcases hsub with ⟨hdv', heq⟩ | ⟨hst', heq⟩ | ⟨hdc', heq⟩
      · have hid : f'.id = f.id := by
          rw [heq] at hdecl
          simpa [undocFinding] using hdecl
        have hfe : Declaration.funD f' = Declaration.funD f :=
          id_inj_of_wellFormed hwf hf' hmem (by simpa [Declaration.id] using hid)
        injection hfe with hff
        subst hff
        have hk : k' = k := by
          rw [heq] at hoff
          simpa [undocFinding] using hoff
        subst hk
        rw [hstmt] at hget'
        injection Option.some.inj hget' with h1 h2 h3 h4
        subst h1
        subst h2
        rw [hdv] at hdv'
        exact Bool.noConfusion hdv'
      · have hid : f'.id = f.id := by
          rw [heq] at hdecl
          simpa [uafFinding] using hdecl
        have hfe : Declaration.funD f' = Declaration.funD f :=
          id_inj_of_wellFormed hwf hf' hmem (by simpa [Declaration.id] using hid)
        injection hfe with hff
        subst hff
        have hk : k' = k := by
          rw [heq] at hoff
          simpa [uafFinding] using hoff
        subst hk
        rw [hstmt] at hget'
        injection Option.some.inj hget' with h1 h2 h3 h4
        subst h3
        rcases hst' with hin | htk
        · simp at hin
        · exact hstale htk
      · have hid : f'.id = f.id := by
          rw [heq] at hdecl
          simpa [misleadingFinding] using hdecl
        have hfe : Declaration.funD f' = Declaration.funD f :=
          id_inj_of_wellFormed hwf hf' hmem (by simpa [Declaration.id] using hid)
        injection hfe with hff
        subst hff
        have hk : k' = k := by
          rw [heq] at hoff
          simpa [misleadingFinding] using hoff
        subst hk
        rw [hstmt] at hget'
        injection Option.some.inj hget' with h1 h2 h3 h4
        subst h1
        subst h4
        rw [hctr, Bool.and_false] at hdc'
        exact Bool.noConfusion hdc'
    · have hid : f'.id = f.id := by
        rw [heq] at hdecl
        simpa [rawArithFinding] using hdecl
      have hfe : Declaration.funD f' = Declaration.funD f :=
        id_inj_of_wellFormed hwf hf' hmem (by simpa [Declaration.id] using hid)
      injection hfe with hff
      subst hff
      have hk : k' = k := by
        rw [heq] at hoff
        simpa [rawArithFinding] using hoff
      subst hk
      rw [hstmt] at hget'
      exact Stmt.noConfusion (Option.some.inj hget')
    · have hid : f'.id = f.id := by
        rw [heq] at hdecl
        simpa [danglingFfiFinding] using hdecl
      have hfe : Declaration.funD f' = Declaration.funD f :=
        id_inj_of_wellFormed hwf hf' hmem (by simpa [Declaration.id] using hid)
      injection hfe with hff
      subst hff
      have hk : k' = k := by
        rw [heq] at hoff
        simpa [danglingFfiFinding] using hoff
      subst hk
      rw [hstmt] at hget'
      exact Stmt.noConfusion (Option.some.inj hget')
  · intro hdv
    exact ⟨undocFinding f.id k, undoc_mem_detect hmem hstmt hdv, rfl, rfl, rfl, rfl⟩

/-- Witness for the amended C6 at the `process_pointer` shape. -/
theorem pointer_deref_precondition_refined_witness :
    ∃ fd ∈ systemsDetect defaultConfig sampleUnitUnsafe,
      fd.ruleId = undocumentedUnsafeId ∧ fd.severity = .critical ∧
      fd.declId = sampleUnsafeFn.id ∧ fd.stmtOffset = some 0 :=
  (pointer_deref_precondition_refined defaultConfig sampleUnitUnsafe sampleUnsafeFn
      (by simp [sampleUnitUnsafe])
      (by unfold CompilationUnit.WellFormed; decide)
      0 false false 0 false (by decide)).2 rfl

/-! ### Claim theorems: architecture and borrowing -/

/-- C5: for every struct with 10 fields spanning 6 distinct domain-noun
clusters and 40 methods, the Architecture detector at default thresholds
F = 7, M = 15 emits a God-entity Finding with confidence at least
Likely. -/
theorem god_entity_detected (cfg : Config) (u : CompilationUnit) (s : StructDecl)
    (hmem : Declaration.structD s ∈ u.decls)
    (hF : cfg.F = 7) (hM : cfg.M = 15)
    (hfields : s.fields.length = 10)
    (hclusters : clusterCount cfg s = 6)
    (hmethods : methodCount u s.name = 40) :
    ∃ fd ∈ architectureDetect cfg u,
      fd.ruleId = godEntityId ∧ fd.declId = s.id ∧
      Confidence.rank .likely ≤ fd.confidence.rank := by
  have hc : cfg.F < s.fields.length ∧ cfg.M < methodCount u s.name ∧
      5 ≤ clusterCount cfg s := by
    rw [hF, hM, hfields, hclusters, hmethods]
    omega
  exact ⟨_, mem_architectureDetect.mpr (Or.inl ⟨s, hmem, hc, rfl⟩), rfl, rfl,
    Nat.le_refl _⟩

/-- The `UserManager`-shaped fixture: 10 fields in 6 clusters, 40
methods. -/
def godCfg : Config :=
  { F := 7, M := 15, smallUnitLimit := 8,
    clusterTable := [("db", "storage"), ("cache", "storage"),
      ("auth", "security"), ("token", "security"), ("logger", "observability"),
      ("metrics", "observability"), ("email", "messaging"),
      ("queue", "messaging"), ("config", "configuration"), ("rate", "traffic")] }

def mkField (n : String) : FieldDecl :=
  { name := n, boxedOrShared := false, refInto := none, documented := false }

def godStruct : StructDecl :=
  { id := 0, name := "UserManager",
    fields := [mkField "db", mkField "cache", mkField "auth", mkField "token",
      mkField "logger", mkField "metrics", mkField "email", mkField "queue",
      mkField "config", mkField "rate"] }

def godImpl : ImplBlock :=
  { id := 1, targetName := "UserManager", traitName := none,
    methodNames := List.replicate 40 "handle" }

def sampleUnitGod : CompilationUnit :=
  { decls := [.structD godStruct, .implB godImpl] }

/-- Witness for C5 at the `UserManager` shape. -/
theorem god_entity_detected_witness :
    ∃ fd ∈ architectureDetect godCfg sampleUnitGod,
      fd.ruleId = godEntityId ∧ fd.declId = godStruct.id ∧
      Confidence.rank .likely ≤ fd.confidence.rank :=
  god_entity_detected godCfg sampleUnitGod godStruct
    (by simp [sampleUnitGod]) rfl rfl (by decide) (by decide) (by decide)

/-- C7: a named lifetime parameter occurring exactly once across the
parameter and return types and unrelated to any other parameter always
yields an unnecessary-lifetime Finding; a lifetime occurring in two or more
positions (shared by related inputs/outputs) never does. -/
theorem unnecessary_lifetime_rule (cfg : Config) (u : CompilationUnit)
    (f : FunctionDecl) (l : String)
    (hmem : Declaration.funD f ∈ u.decls) (hwf : u.WellFormed)
    (hl : l ∈ f.lifetimeParams) :
    (lifetimeOccCount f l = 1 → unrelatedLifetime f l = true →
      ∃ fd ∈ borrowingDetect cfg u,
        fd.ruleId = unnecessaryLifetimeId ∧ fd.declId = f.id ∧ fd.message = l) ∧
    (2 ≤ lifetimeOccCount f l →
      ¬ ∃ fd ∈ borrowingDetect cfg u,
        fd.ruleId = unnecessaryLifetimeId ∧ fd.declId = f.id ∧ fd.message = l) := by
  constructor
  · intro hocc hunrel
    exact ⟨_, mem_borrowingDetect.mpr (Or.inl ⟨f, hmem, l, hl, ⟨hocc, hunrel⟩, rfl⟩),
      rfl, rfl, rfl⟩
  · rintro hocc ⟨fd, hfd, hrule, hdecl, hmsg⟩
    rcases mem_borrowingDetect.mp hfd with
      ⟨f', hf', l', hl', ⟨hocc', hunrel'⟩, heq⟩ | ⟨s, hs, fl, hfl, href, heq⟩
    · have hid : f'.id = f.id := by
        rw [heq] at hdecl
        simpa using hdecl
      have hfe : Declaration.funD f' = Declaration.funD f :=
        id_inj_of_wellFormed hwf hf' hmem (by simpa [Declaration.id] using hid)
      injection hfe with hff
      subst hff
      have hll : l' = l := by
        rw [heq] at hmsg
        simpa using hmsg
      subst hll
      omega
    · rw [heq] at hrule
      have hss : selfReferenceId = unnecessaryLifetimeId := hrule
      exact absurd hss (by decide)

/-- The `process<a, b, c>` fixture shape: three lifetimes, each occurring
exactly once, none related. -/
def sampleLifetimeFn : FunctionDecl :=
  { id := 2, name := "process",
    params := [{ lifetimes := ["a"] }, { lifetimes := ["b"] }],
    retType := { lifetimes := ["c"] },
    isAsync := false, isUnsafe := false, generics := [],
    lifetimeParams := ["a", "b", "c"], lifetimeRelations := [], stmts := [] }

def sampleUnitLifetime : CompilationUnit := { decls := [.funD sampleLifetimeFn] }

/-- Witness for C7 at the `process` shape, lifetime `c`. -/
theorem unnecessary_lifetime_rule_witness :
    ∃ fd ∈ borrowingDetect defaultConfig sampleUnitLifetime,
      fd.ruleId = unnecessaryLifetimeId ∧ fd.declId = sampleLifetimeFn.id ∧
      fd.message = "c" :=
  (unnecessary_lifetime_rule defaultConfig sampleUnitLifetime sampleLifetimeFn "c"
      (by simp [sampleUnitLifetime])
      (by unfold CompilationUnit.WellFormed; decide)
      (by decide)).1 (by decide) (by decide)

/-- C10: a struct field that is a pointer or reference into data owned by
the same aggregate always yields a Critical
self-reference-without-indirection Finding, whatever the field's
documentation flag. -/
theorem self_reference_always_critical (cfg : Config) (u : CompilationUnit)
    (s : StructDecl) (fl : FieldDecl) (doc : Bool)
    (hmem : Declaration.structD s ∈ u.decls) (hfl : fl ∈ s.fields)
    (href : fl.refInto = some s.id) (_hdoc : fl.documented = doc) :
    ∃ fd ∈ borrowingDetect cfg u,
      fd.ruleId = selfReferenceId ∧ fd.severity = .critical ∧
      fd.declId = s.id :=
  ⟨_, mem_borrowingDetect.mpr (Or.inr ⟨s, hmem, fl, hfl, href, rfl⟩),
    rfl, rfl, rfl⟩

/-- The `SelfReferential` fixture shape: a documented raw pointer into the
aggregate's own data. -/
def sampleSelfRefField : FieldDecl :=
  { name := "reference", boxedOrShared := false, refInto := some 3,
    documented := true }

def sampleSelfRefStruct : StructDecl :=
  { id := 3, name := "SelfReferential",
    fields := [mkField "name", sampleSelfRefField] }

def sampleUnitSelfRef : CompilationUnit :=
  { decls := [.structD sampleSelfRefStruct] }

/-- Witness for C10 at the `SelfReferential` shape, documentation
present. -/
theorem self_reference_always_critical_witness :
    ∃ fd ∈ borrowingDetect defaultConfig sampleUnitSelfRef,
      fd.ruleId = selfReferenceId ∧ fd.severity = .critical ∧
      fd.declId = sampleSelfRefStruct.id :=
  self_reference_always_critical defaultConfig sampleUnitSelfRef
    sampleSelfRefStruct sampleSelfRefField true
    (by simp [sampleUnitSelfRef]) (by decide) (by decide) (by decide)

/-! ### Claim theorems: Triage Router -/

theorem mem_allDomains (d : Domain) : d ∈ allDomains := by
  cases d <;> simp [allDomains]

theorem typeSystem_severity {cfg : Config} {u : CompilationUnit} {fd : Finding}
    (h : fd ∈ typeSystemDetect cfg u) : fd.severity = Severity.warning := by
  obtain ⟨t, _, _, rfl⟩ := mem_typeSystemDetect.mp h
  rfl

theorem sum_pos_of_mem_fun {u : CompilationUnit} (g : Declaration → Nat)
    {d : Declaration} (hd : d ∈ u.decls) (hpos : 0 < g d) :
    0 < (u.decls.map g).sum :=
  Nat.lt_of_lt_of_le hpos
    (List.single_le_sum (fun x _ => Nat.zero_le x) _ (List.mem_map_of_mem g hd))

theorem signal_pos_architecture {cfg : Config} {u : CompilationUnit} {fd : Finding}
    (h : fd ∈ architectureDetect cfg u) (hc : fd.severity = Severity.critical) :
    0 < signalOf .architecture u := by
  rcases mem_architectureDetect.mp h with ⟨s, hs, ⟨hF, _, _⟩, heq⟩ | ⟨t, ht, _, heq⟩
  · have hpos : 0 < s.fields.length := Nat.lt_of_le_of_lt (Nat.zero_le _) hF
    exact sum_pos_of_mem_fun
      (fun dd =>
        match dd with
        | Declaration.structD s => s.fields.length
        | _ => 0) hs hpos
  · rw [heq] at hc
    exact absurd (show Severity.warning = Severity.critical from hc) (by decide)

theorem signal_pos_concurrency_lock {cfg : Config} {u : CompilationUnit}
    {fd : Finding} (h : fd ∈ concurrencyDetect cfg u)
    (hrule : fd.ruleId = lockAcrossSuspendId) :
    0 < signalOf .concurrency u := by
  obtain ⟨f, hf, hcase⟩ := mem_concurrencyDetect.mp h
  rcases hcase with ⟨hls, heq⟩ | ⟨_, heq⟩ | ⟨_, heq⟩ | ⟨_, heq⟩
  · exact List.countP_pos_iff.mpr
      ⟨Declaration.funD f, hf, acquireThenSuspend_of_lockThenSuspend hls⟩
  · rw [heq] at hrule
    exact absurd (show raceId = lockAcrossSuspendId from hrule) (by decide)
  · rw [heq] at hrule
    exact absurd (show blockingIoInAsyncId = lockAcrossSuspendId from hrule)
      (by decide)
  · rw [heq] at hrule
    exact absurd (show deadlockId = lockAcrossSuspendId from hrule) (by decide)

theorem signal_pos_errorHandling {cfg : Config} {u : CompilationUnit}
    {fd : Finding} (h : fd ∈ errorHandlingDetect cfg u)
    (hsev : fd.severity = Severity.critical) :
    0 < signalOf .errorHandling u := by
  obtain ⟨f, hf, hcase⟩ := mem_errorHandlingDetect.mp h
  rcases hcase with ⟨_, heq⟩ | ⟨hin, heq⟩ | ⟨_, heq⟩ | ⟨hin, heq⟩ | ⟨_, heq⟩
  · rw [heq] at hsev
    exact absurd (show Severity.warning = Severity.critical from hsev) (by decide)
  · have hpos : 0 < f.stmts.countP Stmt.isErrStmt :=
      List.countP_pos_iff.mpr ⟨_, hin, rfl⟩
    exact sum_pos_of_mem_fun
      (fun dd =>
        match dd with
        | Declaration.funD f => f.stmts.countP Stmt.isErrStmt
        | _ => 0) hf hpos
  · rw [heq] at hsev
    exact absurd (show Severity.info = Severity.critical from hsev) (by decide)
  · have hpos : 0 < f.stmts.countP Stmt.isErrStmt :=
      List.countP_pos_iff.mpr ⟨_, hin, rfl⟩
    exact sum_pos_of_mem_fun
      (fun dd =>
        match dd with
        | Declaration.funD f => f.stmts.countP Stmt.isErrStmt
        | _ => 0) hf hpos
  · rw [heq] at hsev
    exact absurd (show Severity.warning = Severity.critical from hsev) (by decide)

theorem signal_pos_systems {cfg : Config} {u : CompilationUnit} {fd : Finding}
    (h : fd ∈ systemsDetect cfg u) : 0 < signalOf .systems u := by
  obtain ⟨f, hf, k, hcase⟩ := systemsDetect_sound h
  have hop : ∃ st ∈ f.stmts, Stmt.isUnsafeOp st = true := by
    rcases hcase with ⟨doc, val, src, ctr, hget, _⟩ | ⟨hget, _⟩ | ⟨hget, _⟩
    · exact ⟨_, List.getElem?_mem hget, rfl⟩
    · exact ⟨_, List.getElem?_mem hget, rfl⟩
    · exact ⟨_, List.getElem?_mem hget, rfl⟩
  obtain ⟨st, hst, hop'⟩ := hop
  have hpos : 0 < f.stmts.countP Stmt.isUnsafeOp :=
    List.countP_pos_iff.mpr ⟨st, hst, hop'⟩
  exact sum_pos_of_mem_fun
    (fun dd =>
      match dd with
      | Declaration.funD f => f.stmts.countP Stmt.isUnsafeOp
      | _ => 0) hf hpos

/-- The `SelfReferential`-plus-blocking-I/O unit, padded to exceed the
small-unit limit. -/
def blockingFn : FunctionDecl :=
  { id := 11, name := "blocking_in_async", params := [],
    retType := { lifetimes := [] },
    isAsync := true, isUnsafe := false, generics := [], lifetimeParams := [],
    lifetimeRelations := [], stmts := [.blockingIoCall] }

def fillerEnum (i : Nat) : EnumDecl := { id := i, name := "Filler", variants := [] }

def largeMissUnit : CompilationUnit :=
  { decls := [.structD sampleSelfRefStruct, .funD blockingFn,
      .enumD (fillerEnum 12), .enumD (fillerEnum 13), .enumD (fillerEnum 14),
      .enumD (fillerEnum 15), .enumD (fillerEnum 16), .enumD (fillerEnum 17),
      .enumD (fillerEnum 18)] }

/-- C1 counterexample: on a large unit the Borrowing detector emits a
Critical self-reference finding and the Concurrency detector a Critical
blocking-I/O finding, yet the Router selects neither domain — the unit has
no lifetime parameter (the §4.8 borrowing signal) and no lock/suspend
adjacency (the §4.8 concurrency signal), so both triggering conditions
correspond to zero-signal states and the claimed superset property
fails. -/
theorem router_soundness_counterexample :
    (∃ fd ∈ runDetector .borrowing defaultConfig largeMissUnit,
      fd.severity = Severity.critical) ∧
    Domain.borrowing ∉ routerSelect defaultConfig largeMissUnit ∧
    (∃ fd ∈ runDetector .concurrency defaultConfig largeMissUnit,
      fd.severity = Severity.critical) ∧
    Domain.concurrency ∉ routerSelect defaultConfig largeMissUnit := by decide

/-- C1 (amended): the Router runs every detector on small units, so no
Critical finding is missed there; on large units it never omits the
Architecture, Systems, Error-Handling, or Type-System domains when their
detector produces a Critical finding, nor the Concurrency domain for a
Critical lock-across-suspend finding.  Critical triggers corresponding to
a zero §4.8-signal state (self-reference without lifetime parameters;
race, blocking I/O, or deadlock without lock/suspend adjacency) can be
skipped on large units, as the counterexample shows. -/
theorem router_critical_coverage (cfg : Config) (u : CompilationUnit)
    (d : Domain) (fd : Finding) (hfd : fd ∈ runDetector d cfg u)
    (hsev : fd.severity = Severity.critical) :
    (u.decls.length ≤ cfg.smallUnitLimit → d ∈ routerSelect cfg u) ∧
    (d = .architecture ∨ d = .systems ∨ d = .errorHandling ∨ d = .typeSystem ∨
        (d = .concurrency ∧ fd.ruleId = lockAcrossSuspendId) →
      d ∈ routerSelect cfg u) := by
  constructor
  · intro hsmall
    unfold routerSelect
    rw [if_pos hsmall]
    exact mem_allDomains d
  · intro hscope
    unfold routerSelect
    split
    · exact mem_allDomains d
    · refine List.mem_filter.mpr ⟨mem_allDomains d, decide_eq_true ?_⟩
      rcases hscope with rfl | rfl | rfl | rfl | ⟨rfl, hrule⟩
      · exact signal_pos_architecture
          (show fd ∈ architectureDetect cfg u from hfd) hsev
      · exact signal_pos_systems (show fd ∈ systemsDetect cfg u from hfd)
      · exact signal_pos_errorHandling
          (show fd ∈ errorHandlingDetect cfg u from hfd) hsev
      · have hw := typeSystem_severity (show fd ∈ typeSystemDetect cfg u from hfd)
        rw [hw] at hsev
        exact absurd hsev (by decide)
      · exact signal_pos_concurrency_lock
          (show fd ∈ concurrencyDetect cfg u from hfd) hrule

/-- Witness for the amended C1: a Critical lock-across-suspend finding
keeps the concurrency domain selected. -/
theorem router_critical_coverage_witness :
    Domain.concurrency ∈ routerSelect defaultConfig sampleUnitAsync :=
  (router_critical_coverage defaultConfig sampleUnitAsync .concurrency
      (lockAcrossSuspendFinding 0) (by decide) rfl).2
    (Or.inr (Or.inr (Or.inr (Or.inr ⟨rfl, rfl⟩))))

/-! ### Aggregator lemmas -/

theorem countP_mergeInto (acc : List Finding) (f : Finding)
    (k : String × Nat × Option Nat) :
    (mergeInto acc f).countP (fun g => decide (g.key = k)) =
      if 0 < acc.countP (fun g => decide (g.key = f.key)) then
        acc.countP (fun g => decide (g.key = k))
      else
        acc.countP (fun g => decide (g.key = k)) + (if f.key = k then 1 else 0) := by
  by_cases hpos : 0 < acc.countP (fun g => decide (g.key = f.key))
  · rw [if_pos hpos]
    have hany : (acc.any fun g => decide (g.key = f.key)) = true := by
      obtain ⟨g, hg, hgk⟩ := List.countP_pos_iff.mp hpos
      exact List.any_eq_true.mpr ⟨g, hg, hgk⟩
    unfold mergeInto
    rw [if_pos hany, List.countP_map]
    apply List.countP_congr
    intro g _
    by_cases hk : g.key = f.key
    · simp only [Function.comp_apply, if_pos hk]
      constructor
      · intro h
        have : ({ g with domains := g.domains ++ f.domains } : Finding).key = k :=
          of_decide_eq_true h
        exact decide_eq_true this
      · intro h
        exact decide_eq_true (of_decide_eq_true h :
          ({ g with domains := g.domains ++ f.domains } : Finding).key = k)
    · simp [Function.comp_apply, if_neg hk]
  · rw [if_neg hpos]
    have hany : ¬ (acc.any fun g => decide (g.key = f.key)) = true := by
      intro hx
      obtain ⟨g, hg, hgk⟩ := List.any_eq_true.mp hx
      exact hpos (List.countP_pos_iff.mpr ⟨g, hg, hgk⟩)
    unfold mergeInto
    rw [if_neg hany, List.countP_append]
    congr 1
    by_cases hk : f.key = k
    · simp [List.countP_cons, hk]
    · simp [List.countP_cons, hk]

theorem mergeInto_count_le_one (acc : List Finding) (f : Finding)
    (h : ∀ k, acc.countP (fun g => decide (g.key = k)) ≤ 1) :
    ∀ k, (mergeInto acc f).countP (fun g => decide (g.key = k)) ≤ 1 := by
  intro k
  rw [countP_mergeInto]
  by_cases hpos : 0 < acc.countP (fun g => decide (g.key = f.key))
  · rw [if_pos hpos]
    exact h k
  · rw [if_neg hpos]
    by_cases hk : f.key = k
    · subst hk
      rw [if_pos rfl]
      have h0 := h f.key
      omega
    · rw [if_neg hk]
      have := h k
      omega

theorem mergeInto_count_self (acc : List Finding) (f : Finding)
    (h : acc.countP (fun g => decide (g.key = f.key)) ≤ 1) :
    (mergeInto acc f).countP (fun g => decide (g.key = f.key)) = 1 := by
  rw [countP_mergeInto]
  by_cases hpos : 0 < acc.countP (fun g => decide (g.key = f.key))
  · rw [if_pos hpos]
    omega
  · rw [if_neg hpos, if_pos rfl]
    omega

theorem foldl_count_stable (l : List Finding) :
    ∀ (acc : List Finding) (k : String × Nat × Option Nat),
      acc.countP (fun g => decide (g.key = k)) = 1 →
      (l.foldl mergeInto acc).countP (fun g => decide (g.key = k)) = 1 := by
  induction l with
  | nil => intro acc k h; simpa using h
  | cons f rest ih =>
      intro acc k h
      rw [List.foldl_cons]
      apply ih
      rw [countP_mergeInto]
      by_cases hpos : 0 < acc.countP (fun g => decide (g.key = f.key))
      · rw [if_pos hpos]
        exact h
      · rw [if_neg hpos]
        by_cases hk : f.key = k
        · subst hk
          omega
        · rw [if_neg hk]
          omega

theorem foldl_count_le_one (l : List Finding) :
    ∀ (acc : List Finding),
      (∀ k, acc.countP (fun g => decide (g.key = k)) ≤ 1) →
      ∀ k, (l.foldl mergeInto acc).countP (fun g => decide (g.key = k)) ≤ 1 := by
  induction l with
  | nil => intro acc h k; simpa using h k
  | cons f rest ih =>
      intro acc h k
      rw [List.foldl_cons]
      exact ih _ (mergeInto_count_le_one acc f h) k

theorem foldl_count_mem (f : Finding) :
    ∀ (l : List Finding), f ∈ l →
      ∀ (acc : List Finding),
        (∀ k, acc.countP (fun g => decide (g.key = k)) ≤ 1) →
        (l.foldl mergeInto acc).countP (fun g => decide (g.key = f.key)) = 1 := by
  intro l
  induction l with
  | nil => intro hf; cases hf
  | cons g rest ih =>
      intro hf acc hacc
      rw [List.foldl_cons]
      rcases List.mem_cons.mp hf with rfl | hfr
      · exact foldl_count_stable rest _ _ (mergeInto_count_self acc f (hacc f.key))
      · exact ih hfr _ (mergeInto_count_le_one acc g hacc)

theorem mergeInto_mono (acc : List Finding) (f g : Finding) (hg : g ∈ acc) :
    ∃ g' ∈ mergeInto acc f, g'.key = g.key ∧ ∀ x ∈ g.domains, x ∈ g'.domains := by
  unfold mergeInto
  by_cases hany : (acc.any fun g => decide (g.key = f.key)) = true
  · rw [if_pos hany]
    refine ⟨if g.key = f.key then { g with domains := g.domains ++ f.domains } else g,
      List.mem_map_of_mem _ hg, ?_, ?_⟩
    · by_cases hk : g.key = f.key
      · rw [if_pos hk]
        rfl
      · rw [if_neg hk]
    · intro x hx
      by_cases hk : g.key = f.key
      · rw [if_pos hk]
        exact List.mem_append_left _ hx
      · rw [if_neg hk]
        exact hx
  · rw [if_neg hany]
    exact ⟨g, List.mem_append_left _ hg, rfl, fun x hx => hx⟩

theorem mergeInto_self_dom (acc : List Finding) (f : Finding) :
    ∃ g ∈ mergeInto acc f, g.key = f.key ∧ ∀ x ∈ f.domains, x ∈ g.domains := by
  unfold mergeInto
  by_cases hany : (acc.any fun g => decide (g.key = f.key)) = true
  · rw [if_pos hany]
    obtain ⟨g0, hg0, hg0k⟩ := List.any_eq_true.mp hany
    have hg0k' : g0.key = f.key := of_decide_eq_true hg0k
    refine ⟨if g0.key = f.key then { g0 with domains := g0.domains ++ f.domains } else g0,
      List.mem_map_of_mem _ hg0, ?_, ?_⟩
    · rw [if_pos hg0k']
      exact hg0k'
    · intro x hx
      rw [if_pos hg0k']
      exact List.mem_append_right _ hx
  · rw [if_neg hany]
    exact ⟨f, List.mem_append_right _ (List.mem_singleton.mpr rfl), rfl,
      fun x hx => hx⟩

theorem foldl_dom_mono (l : List Finding) :
    ∀ (acc : List Finding) (g : Finding), g ∈ acc →
      ∃ g' ∈ l.foldl mergeInto acc, g'.key = g.key ∧
        ∀ x ∈ g.domains, x ∈ g'.domains := by
  induction l with
  | nil => exact fun acc g hg => ⟨g, hg, rfl, fun _ hx => hx⟩
  | cons f rest ih =>
      intro acc g hg
      obtain ⟨g1, hg1, hk1, hd1⟩ := mergeInto_mono acc f g hg
      obtain ⟨g2, hg2, hk2, hd2⟩ := ih _ g1 hg1
      exact ⟨g2, by rw [List.foldl_cons]; exact hg2, hk2.trans hk1,
        fun x hx => hd2 x (hd1 x hx)⟩

theorem aggregate_retains (l : List Finding) (f : Finding) (hf : f ∈ l) :
    ∃ g ∈ aggregate l, g.key = f.key ∧ ∀ x ∈ f.domains, x ∈ g.domains := by
  obtain ⟨s, t, rfl⟩ := List.append_of_mem hf
  unfold aggregate
  rw [List.foldl_append, List.foldl_cons]
  obtain ⟨g1, hg1, hk1, hd1⟩ := mergeInto_self_dom (s.foldl mergeInto []) f
  obtain ⟨g2, hg2, hk2, hd2⟩ := foldl_dom_mono t _ g1 hg1
  exact ⟨g2, hg2, hk2.trans hk1, fun x hx => hd2 x (hd1 x hx)⟩

/-- C8: the Aggregator never drops a Finding — for any input Finding, the
output contains exactly one Finding with its (rule_id, location) key, and
that merged Finding retains the domains of every input Finding sharing the
key. -/
theorem aggregator_never_drops (l : List Finding) (f : Finding) (hf : f ∈ l) :
    (aggregate l).countP (fun g => decide (g.key = f.key)) = 1 ∧
    ∀ f' ∈ l, f'.key = f.key →
      ∃ g ∈ aggregate l, g.key = f.key ∧ ∀ x ∈ f'.domains, x ∈ g.domains := by
  refine ⟨foldl_count_mem f l hf [] (by simp), ?_⟩
  intro f' hf' hk
  obtain ⟨g, hg, hgk, hgd⟩ := aggregate_retains l f' hf'
  exact ⟨g, hg, hk ▸ hgk, hgd⟩

/-- The `LoggerBackend` fixture shape: a single-implementor, internal-only
trait flagged by both the Architecture and the Type-System detectors. -/
def sampleTrait : TraitDecl :=
  { id := 4, name := "LoggerBackend", methods := ["write"], supertraits := [],
    crossesFfi := false, internalOnly := true }

def sampleTraitImpl : ImplBlock :=
  { id := 5, targetName := "ConsoleLoggerBackend",
    traitName := some "LoggerBackend", methodNames := ["write"] }

def sampleUnitTrait : CompilationUnit :=
  { decls := [.traitD sampleTrait, .implB sampleTraitImpl] }

/-- The cross-domain duplicate findings produced on the `LoggerBackend`
unit. -/
def crossFindings : List Finding :=
  architectureDetect defaultConfig sampleUnitTrait ++
    typeSystemDetect defaultConfig sampleUnitTrait

def archSingleFinding : Finding :=
  { ruleId := singleImplementorId, domains := [.architecture],
    severity := .warning, message := "trait with exactly one implementor",
    declId := 4, stmtOffset := none, confidence := .possible }

/-- Witness for C8 on the cross-domain single-implementor overlap. -/
theorem aggregator_never_drops_witness :
    archSingleFinding ∈ crossFindings ∧
    (aggregate crossFindings).countP
      (fun g => decide (g.key = archSingleFinding.key)) = 1 :=
  ⟨by decide, (aggregator_never_drops crossFindings archSingleFinding (by decide)).1⟩

/-! ### Claim theorems: pipeline invariants, determinism, batch errors -/

theorem runDetector_declId {d : Domain} {cfg : Config} {u : CompilationUnit}
    {fd : Finding} (h : fd ∈ runDetector d cfg u) :
    ∃ dd ∈ u.decls, fd.declId = Declaration.id dd := by
  cases d with
  | architecture =>
      rcases mem_architectureDetect.mp (show fd ∈ architectureDetect cfg u from h)
        with ⟨s, hs, _, rfl⟩ | ⟨t, ht, _, rfl⟩
      · exact ⟨.structD s, hs, rfl⟩
      · exact ⟨.traitD t, ht, rfl⟩
  | concurrency =>
      obtain ⟨f, hf, hcase⟩ :=
        mem_concurrencyDetect.mp (show fd ∈ concurrencyDetect cfg u from h)
      rcases hcase with ⟨_, rfl⟩ | ⟨_, rfl⟩ | ⟨_, rfl⟩ | ⟨_, rfl⟩ <;>
        exact ⟨.funD f, hf, rfl⟩
  | borrowing =>
      rcases mem_borrowingDetect.mp (show fd ∈ borrowingDetect cfg u from h) with
        ⟨f, hf, l, _, _, rfl⟩ | ⟨s, hs, fl, _, _, rfl⟩
      · exact ⟨.funD f, hf, rfl⟩
      · exact ⟨.structD s, hs, rfl⟩
  | errorHandling =>
      obtain ⟨f, hf, hcase⟩ :=
        mem_errorHandlingDetect.mp (show fd ∈ errorHandlingDetect cfg u from h)
      rcases hcase with ⟨_, rfl⟩ | ⟨_, rfl⟩ | ⟨_, rfl⟩ | ⟨_, rfl⟩ | ⟨_, rfl⟩ <;>
        exact ⟨.funD f, hf, rfl⟩
  | systems =>
      obtain ⟨f, hf, k, hcase⟩ :=
        systemsDetect_sound (show fd ∈ systemsDetect cfg u from h)
      rcases hcase with ⟨_, _, _, _, _, ⟨_, rfl⟩ | ⟨_, rfl⟩ | ⟨_, rfl⟩⟩ |
        ⟨_, rfl⟩ | ⟨_, rfl⟩ <;>
        exact ⟨.funD f, hf, rfl⟩
  | typeSystem =>
      obtain ⟨t, ht, _, rfl⟩ :=
        mem_typeSystemDetect.mp (show fd ∈ typeSystemDetect cfg u from h)
      exact ⟨.traitD t, ht, rfl⟩

theorem mergeInto_declId {acc : List Finding} {f g : Finding}
    (hg : g ∈ mergeInto acc f) :
    (∃ g' ∈ acc, g.declId = g'.declId) ∨ g = f := by
  unfold mergeInto at hg
  by_cases hany : (acc.any fun g => decide (g.key = f.key)) = true
  · rw [if_pos hany] at hg
    obtain ⟨g0, hg0, heq⟩ := List.mem_map.mp hg
    left
    refine ⟨g0, hg0, ?_⟩
    rw [← heq]
    by_cases hk : g0.key = f.key
    · rw [if_pos hk]
    · rw [if_neg hk]
  · rw [if_neg hany] at hg
    rcases List.mem_append.mp hg with h1 | h2
    · exact Or.inl ⟨g, h1, rfl⟩
    · exact Or.inr (List.mem_singleton.mp h2)

theorem foldl_declId (l : List Finding) :
    ∀ (acc : List Finding) (g : Finding), g ∈ l.foldl mergeInto acc →
      (∃ g' ∈ acc, g.declId = g'.declId) ∨ (∃ f ∈ l, g.declId = f.declId) := by
  induction l with
  | nil => intro acc g hg; exact Or.inl ⟨g, hg, rfl⟩
  | cons f rest ih =>
      intro acc g hg
      rw [List.foldl_cons] at hg
      rcases ih _ g hg with ⟨g', hg', he⟩ | ⟨f', hf', he⟩
      · rcases mergeInto_declId hg' with ⟨g'', hg'', he2⟩ | heq
        · exact Or.inl ⟨g'', hg'', he.trans he2⟩
        · exact Or.inr ⟨f, List.mem_cons_self f rest, he.trans (by rw [heq])⟩
      · exact Or.inr ⟨f', List.mem_cons_of_mem f hf', he⟩

theorem aggregate_declId {l : List Finding} {g : Finding} (hg : g ∈ aggregate l) :
    ∃ f ∈ l, g.declId = f.declId := by
  rcases foldl_declId l [] g hg with ⟨g', hg', _⟩ | h
  · simp at hg'
  · exact h

/-- C2: every Finding produced by the full per-unit pipeline references a
declaration id present in the unit that produced it. -/
theorem findings_resolve_in_unit (cfg : Config) (u : CompilationUnit)
    (fd : Finding) (h : fd ∈ analyzeUnit cfg u) :
    ∃ d ∈ u.decls, fd.declId = Declaration.id d := by
  have h1 : fd ∈ aggregate ((routerSelect cfg u).flatMap fun d =>
      runDetector d cfg u) :=
    (List.perm_insertionSort _ _).mem_iff.mp h
  obtain ⟨f, hf, he⟩ := aggregate_declId h1
  obtain ⟨dsel, _, hfd⟩ := List.mem_flatMap.mp hf
  obtain ⟨dd, hdd, he2⟩ := runDetector_declId hfd
  exact ⟨dd, hdd, he.trans he2⟩

/-- The merged lock-across-suspend Finding emitted for
`sampleUnitAsync`. -/
def lockFinding : Finding :=
  { ruleId := lockAcrossSuspendId, domains := [.concurrency],
    severity := .critical,
    message := "exclusive lock held across a suspension point",
    declId := 0, stmtOffset := none, confidence := .definite }

/-- Witness for C2 on the lock-across-suspend unit. -/
theorem findings_resolve_in_unit_witness :
    ∃ d ∈ sampleUnitAsync.decls, lockFinding.declId = Declaration.id d :=
  findings_resolve_in_unit defaultConfig sampleUnitAsync lockFinding (by decide)

/-- C4: the pipeline is deterministic — running it twice on an unchanged
unit and configuration yields identical ordered Finding sequences, and each
detector is a pure function of the Structural Model and the
configuration. -/
theorem pipeline_idempotent (cfg₁ cfg₂ : Config) (u₁ u₂ : CompilationUnit)
    (hcfg : cfg₁ = cfg₂) (hu : u₁ = u₂) :
    analyzeUnit cfg₁ u₁ = analyzeUnit cfg₂ u₂ ∧
    ∀ d : Domain, runDetector d cfg₁ u₁ = runDetector d cfg₂ u₂ := by
  subst hcfg
  subst hu
  exact ⟨rfl, fun _ => rfl⟩

/-- Witness for C4 at a concrete unit and configuration. -/
theorem pipeline_idempotent_witness :
    analyzeUnit defaultConfig sampleUnitAsync =
      analyzeUnit defaultConfig sampleUnitAsync :=
  (pipeline_idempotent defaultConfig defaultConfig sampleUnitAsync
    sampleUnitAsync rfl rfl).1

/-- C9: when Structural Model construction fails for one unit, analysis of
that unit halts with the construction error (no detector output is produced
for it), and the batch result is exactly the batch result of the remaining
units around it. -/
theorem model_error_isolated (cfg : Config) (pre post : List RawUnit)
    (r : RawUnit) (e : ModelConstructionError) (h : buildModel r = .error e) :
    analyzeRaw cfg r = .error e ∧
    analyzeBatch cfg (pre ++ r :: post) =
      analyzeBatch cfg pre ++ .error e :: analyzeBatch cfg post := by
  have h1 : analyzeRaw cfg r = .error e := by
    unfold analyzeRaw
    rw [h]
    rfl
  refine ⟨h1, ?_⟩
  unfold analyzeBatch
  rw [List.map_append, List.map_cons, h1]

/-- A malformed raw unit. -/
def badRaw : RawUnit := { rawDecls := [.malformed "unparsable token stream"] }

def emptyRaw : RawUnit := { rawDecls := [] }

/-- Witness for C9 with a malformed unit between two well-formed ones. -/
theorem model_error_isolated_witness :
    analyzeRaw defaultConfig badRaw =
      .error (.invalidDecl "unparsable token stream") ∧
    analyzeBatch defaultConfig ([emptyRaw] ++ badRaw :: [emptyRaw]) =
      analyzeBatch defaultConfig [emptyRaw] ++
        .error (.invalidDecl "unparsable token stream") ::
          analyzeBatch defaultConfig [emptyRaw] :=
  model_error_isolated defaultConfig [emptyRaw] [emptyRaw] badRaw
    (.invalidDecl "unparsable token stream") rfl

end StaticAnalysis
